import Mathlib

/-!
Verification of the Google Voice Takeout history converter
(`src/google_voice_history.py`) against its natural-language specification.

The Python source is shallowly embedded: pure functions become Lean
functions over `String` / `List Char`, the process-wide accumulators
(`CONTACT_STATS`, `ANONYMIZED_VALUES`) become explicit state threaded
through the pipeline, and exceptions become `Except String`.  Machine
integers do not occur (Python integers are unbounded), so `Nat`/`Int`
are exact models.  The cryptographic hash inside `anonymize` is kept
abstract as a parameter `digest : String → String`: every claim about
`anonymize` concerns the registration table, not the hash value itself.
-/

namespace GVH

/-! ## Python string primitives -/

/-- Code-point comparison of two characters, as Python compares `str`
characters. -/
def charLtb (a b : Char) : Bool :=
  a.toNat < b.toNat

/-- Python's `str.__lt__`: lexicographic comparison by Unicode code point,
with the proper-prefix rule (a proper prefix is smaller). -/
def lexLt : List Char → List Char → Bool
  | _, [] => false
  | [], _ :: _ => true
  | a :: as, b :: bs =>
    if charLtb a b then true
    else if charLtb b a then false
    else lexLt as bs

/-- Python's `str.__lt__` on whole strings. -/
def pyStrLt (a b : String) : Bool :=
  lexLt a.data b.data

/-- Predicate: `needle` occurs as a contiguous substring of `hay`
(Python's `needle in hay`). -/
def strContains (hay needle : String) : Prop :=
  needle.data <:+: hay.data

instance (hay needle : String) : Decidable (strContains hay needle) := by
  unfold strContains
  infer_instance

/-! ## Timestamp Formatter (`format_timestamp`)

`format_timestamp` is `timestamp.replace("_", ":").replace("Z", "+00:00")`:
two sequential global substring replacements, each with a one-character
pattern, hence expressible as per-character maps. -/

/-- First pass: `str.replace("_", ":")` — every underscore becomes a colon
(one-character pattern, so it is a character map). -/
def replaceUnd (cs : List Char) : List Char :=
  cs.map fun c => if c = '_' then ':' else c

/-- Second pass: `str.replace("Z", "+00:00")` — every `Z` becomes the
six-character offset suffix. -/
def replaceZ (cs : List Char) : List Char :=
  cs.flatMap fun c => if c = 'Z' then "+00:00".data else [c]

/-- Embeds `format_timestamp`: convert the non-standard filename timestamp to
ISO-8601 by the two replacements above. -/
def format_timestamp (s : String) : String :=
  ⟨replaceZ (replaceUnd s.data)⟩

/-! ## Contact Normalizer (`format_contact`) and Anonymizer (`anonymize`) -/

/-- Embeds `re.search(r"\d{10}", contact) is not None`: the string contains a run
of 10 consecutive decimal digits somewhere. -/
def hasTenDigitRun : List Char → Bool
  | [] => false
  | c :: cs =>
    (((c :: cs).take 10).length = 10 && ((c :: cs).take 10).all Char.isDigit)
      || hasTenDigitRun cs

/-- The process-wide `CONTACT_STATS` counters. -/
structure ContactStats where
  total : Nat
  missing : Nat
  numbers : Nat
  names : Nat
deriving Repr, DecidableEq

/-- The initial `CONTACT_STATS` value at interpreter start. -/
def initStats : ContactStats := ⟨0, 0, 0, 0⟩

/-- The process-wide `ANONYMIZED_VALUES` dictionary: an insertion-ordered
mapping digest → original value, modelled as an association list. -/
abbrev AnonTable := List (String × String)

/-- Dictionary lookup in the anonymization table. -/
def lookupTbl : List (String × String) → String → Option String
  | [], _ => none
  | (k, v) :: rest, key => if k = key then some v else lookupTbl rest key

/-- Embeds `anonymize(value)`: compute the digest, `setdefault` it into the table,
and fail if the table already maps the digest to a different original.
Returns the table (unchanged when the digest was already present — in
particular an existing entry is never overwritten) together with either
the digest or the collision error.  The `lru_cache` memoization in the
source is observationally transparent here: re-running the body on a
repeated input returns the same digest and leaves the table unchanged. -/
def anonymize (digest : String → String) (tbl : List (String × String))
    (value : String) : List (String × String) × Except String String :=
  match lookupTbl tbl (digest value) with
  | some current =>
    (tbl,
      if current = value then .ok (digest value)
      else .error ("Duplicate anonymization for " ++ current ++ " and " ++ value))
  | none => (tbl ++ [(digest value, value)], .ok (digest value))

/-- The `contact_id` / `contact_name` pair produced by `format_contact`.
`none` models Python `None`. -/
structure ContactFields where
  contact_id : Option String
  contact_name : Option String
deriving Repr, DecidableEq

/-- Embeds `format_contact(contact)`: bump the stats counters (this happens before
the `anonymize` call, so the bumped stats survive even when `anonymize`
raises), then build the fields, calling `anonymize` only for a truthy
(non-empty) contact. -/
def format_contact (digest : String → String) (st : ContactStats)
    (tbl : List (String × String)) (contact : String) :
    ContactStats × Except String (ContactFields × List (String × String)) :=
  let st1 := { st with total := st.total + 1 }
  let is_number := hasTenDigitRun contact.data
  let st2 :=
    if is_number then { st1 with numbers := st1.numbers + 1 }
    else if contact ≠ "" then { st1 with names := st1.names + 1 }
    else { st1 with missing := st1.missing + 1 }
  (st2,
    if contact = "" then
      .ok (⟨none, if is_number then none else some contact⟩, tbl)
    else
      match anonymize digest tbl contact with
      | (tbl2, .ok d) =>
        .ok (⟨some d, if is_number then none else some contact⟩, tbl2)
      | (_, .error e) => .error e)

/-! ## XML element model

`xml.etree.ElementTree` elements, restricted to what the script reads:
attributes, text, children.  `find(".//*[@class='X']")` returns the first
*descendant* (pre-order document order, the element itself excluded) whose
`class` attribute equals `X`; `findall` returns all of them. -/

mutual
/-- An element tree: attributes, text, children.  The children sit in the
companion type `ElemForest` (an isomorphic copy of `List Element`, used
so that traversals are mutual structural recursions). -/
inductive Element where
  | elem (attrs : List (String × String)) (text : Option String)
      (children : ElemForest)
/-- A sequence of sibling elements. -/
inductive ElemForest where
  | nil
  | cons (e : Element) (rest : ElemForest)
end

/-- Build a sibling forest from a plain list. -/
def listToForest : List Element → ElemForest
  | [] => .nil
  | e :: rest => .cons e (listToForest rest)

/-- Attribute dictionary of an element. -/
def Element.attrs : Element → List (String × String)
  | .elem a _ _ => a

/-- Text of an element (Python `element.text`, `None` when absent). -/
def Element.text : Element → Option String
  | .elem _ t _ => t

/-- Children of an element. -/
def Element.children : Element → ElemForest
  | .elem _ _ ch => ch

/-- Embeds `element.get(key)`: attribute lookup. -/
def Element.attr (e : Element) (key : String) : Option String :=
  lookupTbl e.attrs key

/-- Embeds `element.get(key, default)`: attribute lookup with a default. -/
def Element.getD (e : Element) (key dflt : String) : String :=
  (e.attr key).getD dflt

mutual
/-- All elements of a forest in document (pre-order) order, each root
included before its own descendants. -/
def forestElems : ElemForest → List Element
  | .nil => []
  | .cons e rest => e :: (childElems e ++ forestElems rest)
/-- All proper descendants of one element in document order. -/
def childElems : Element → List Element
  | .elem _ _ ch => forestElems ch
end

/-- All proper descendants of an element in document order
(the `.//*` axis of `ElementTree`). -/
def Element.descendants (e : Element) : List Element :=
  childElems e

/-- Does the element carry `class="cls"` exactly? -/
def hasClass (cls : String) (e : Element) : Bool :=
  e.attr "class" = some cls

/-- Embeds `xml.find(".//*[@class='cls']")`: first matching descendant. -/
def findClass (e : Element) (cls : String) : Option Element :=
  e.descendants.find? (hasClass cls)

/-- Embeds `xml.findall(".//*[@class='cls']")`: all matching descendants in
document order. -/
def findAllClass (e : Element) (cls : String) : List Element :=
  e.descendants.filter (hasClass cls)

/-! ## `datetime` model

The script's timestamps go through `datetime.fromisoformat`, `strftime`,
and `datetime` subtraction.  A `datetime` is its seven naive fields plus
an optional UTC offset (in seconds); Python validates field ranges at
construction. -/

/-- A Python `datetime.datetime`: naive fields plus optional fixed UTC
offset in seconds (`tzinfo = timezone(timedelta(seconds = offset))`). -/
structure PyDateTime where
  year : Nat
  month : Nat
  day : Nat
  hour : Nat
  minute : Nat
  second : Nat
  microsecond : Nat
  offset : Option Int
deriving Repr, DecidableEq

/-- Is `y` a Gregorian leap year? -/
def isLeap (y : Nat) : Bool :=
  (y % 4 = 0 && y % 100 ≠ 0) || y % 400 = 0

/-- Days in month `m` of year `y` (Python `calendar`/`datetime` rules). -/
def daysInMonth (y m : Nat) : Nat :=
  if m = 2 then (if isLeap y then 29 else 28)
  else if m = 4 ∨ m = 6 ∨ m = 9 ∨ m = 11 then 30
  else 31

/-- Days in full months of year `y` before month `m`
(1-based; `m ≤ 13`). -/
def daysBeforeMonth (y m : Nat) : Nat :=
  (List.range (m - 1)).foldl (fun acc i => acc + daysInMonth y (i + 1)) 0

/-- Embeds `datetime.toordinal()`: day number of `y-m-d` in the proleptic
Gregorian calendar, day 1 being 0001-01-01. -/
def toOrdinal (y m d : Nat) : Nat :=
  (y - 1) * 365 + (y - 1) / 4 - (y - 1) / 100 + (y - 1) / 400
    + daysBeforeMonth y m + d

/-- Microseconds of the naive fields since the calendar origin. -/
def naiveMicros (dt : PyDateTime) : Nat :=
  ((toOrdinal dt.year dt.month dt.day) * 86400
      + dt.hour * 3600 + dt.minute * 60 + dt.second) * 1000000
    + dt.microsecond

/-- Embeds `(a - b).days`: Python `datetime` subtraction followed by
`timedelta.days` (floor division of the microsecond difference by a day).
Subtracting an offset-aware from an offset-naive datetime (or vice versa)
raises `TypeError`. -/
def subDatetimeDays (a b : PyDateTime) : Except String Int :=
  match a.offset, b.offset with
  | none, none =>
    .ok (Int.fdiv ((naiveMicros a : Int) - (naiveMicros b : Int)) 86400000000)
  | some oa, some ob =>
    .ok (Int.fdiv (((naiveMicros a : Int) - oa * 1000000)
      - ((naiveMicros b : Int) - ob * 1000000)) 86400000000)
  | _, _ =>
    .error "unsupported operand type for aware and naive datetimes"

/-! ### `datetime.fromisoformat`

Model of CPython's (pre-3.11, strict) `datetime.fromisoformat` grammar:
`YYYY-MM-DD` (exactly ten characters), optionally followed by one
arbitrary separator character and a time `HH[:MM[:SS[.fff[fff]]]]`,
optionally followed by an offset `±HH:MM[:SS[.ffffff]]` (split at the
first `-` or `+` of the time part).  Numeric components are plain digit
runs.  Field validation mirrors the `datetime` constructor.  The empty
string in particular is rejected. -/

/-- Numeric value of a decimal digit character. -/
def digitVal (c : Char) : Nat := c.toNat - 48

/-- Value of a digit string, most significant first. -/
def digitsVal (cs : List Char) : Nat :=
  cs.foldl (fun n c => n * 10 + digitVal c) 0

/-- Parse exactly two digits, returning the value and the rest. -/
def parse2d : List Char → Option (Nat × List Char)
  | a :: b :: rest =>
    if a.isDigit && b.isDigit then some (digitVal a * 10 + digitVal b, rest)
    else none
  | _ => none

/-- Parse a fractional-second component (after the dot): exactly 3 or 6
digits, scaled to microseconds. -/
def parseFrac (cs : List Char) : Option Nat :=
  if cs.length = 3 && cs.all Char.isDigit then some (digitsVal cs * 1000)
  else if cs.length = 6 && cs.all Char.isDigit then some (digitsVal cs)
  else none

/-- CPython's `_parse_hh_mm_ss_ff`: `HH`, `HH:MM`, `HH:MM:SS`, or
`HH:MM:SS.fff[fff]`, consuming the whole input. -/
def parseHMSF (cs : List Char) : Option (Nat × Nat × Nat × Nat) := do
  let (h, r1) ← parse2d cs
  match r1 with
  | [] => some (h, 0, 0, 0)
  | ':' :: r2 => do
    let (m, r3) ← parse2d r2
    match r3 with
    | [] => some (h, m, 0, 0)
    | ':' :: r4 => do
      let (s, r5) ← parse2d r4
      match r5 with
      | [] => some (h, m, s, 0)
      | '.' :: r6 => do
        let f ← parseFrac r6
        some (h, m, s, f)
      | _ => none
    | _ => none
  | _ => none

/-- Index of the first occurrence of `p`. -/
def firstIdx (p : Char) : List Char → Option Nat
  | [] => none
  | c :: cs => if c = p then some 0 else (firstIdx p cs).map (· + 1)

/-- CPython's `_parse_isoformat_time`: split the time string at the first
`-` (else the first `+`) into clock time and timezone, parse both.
Returns `(hour, minute, second, microsecond, offset-in-microseconds)`. -/
def parseIsoTime (cs : List Char) : Option (Nat × Nat × Nat × Nat × Option Int) :=
  if cs.length < 2 then none
  else
    let tzPos := match firstIdx '-' cs with
      | some i => some i
      | none => firstIdx '+' cs
    match tzPos with
    | none => (parseHMSF cs).map (fun x => (x.1, x.2.1, x.2.2.1, x.2.2.2, none))
    | some i => do
      let x ← parseHMSF (cs.take i)
      let tzstr := cs.drop (i + 1)
      if tzstr.length = 5 ∨ tzstr.length = 8 ∨ tzstr.length = 15 then do
        let tz ← parseHMSF tzstr
        let mag : Int := ((tz.1 * 3600 + tz.2.1 * 60 + tz.2.2.1) * 1000000
          + tz.2.2.2 : Nat)
        let sign : Int := if (cs.drop i).head? = some '-' then -1 else 1
        some (x.1, x.2.1, x.2.2.1, x.2.2.2, some (sign * mag))
      else none

/-- CPython's `_parse_isoformat_date`: exactly `YYYY-MM-DD`. -/
def parseIsoDate : List Char → Option (Nat × Nat × Nat)
  | [y1, y2, y3, y4, s1, m1, m2, s2, d1, d2] =>
    if s1 = '-' && s2 = '-'
        && [y1, y2, y3, y4, m1, m2, d1, d2].all Char.isDigit then
      some (digitsVal [y1, y2, y3, y4], digitVal m1 * 10 + digitVal m2,
        digitVal d1 * 10 + digitVal d2)
    else none
  | _ => none

/-- The `datetime` constructor: validate field ranges. -/
def mkDatetime (y mo d h mi s f : Nat) (off : Option Int) :
    Except String PyDateTime :=
  if ¬ (1 ≤ y ∧ y ≤ 9999) then .error "year is out of range"
  else if ¬ (1 ≤ mo ∧ mo ≤ 12) then .error "month must be in 1..12"
  else if ¬ (1 ≤ d ∧ d ≤ daysInMonth y mo) then
    .error "day is out of range for month"
  else if ¬ (h ≤ 23) then .error "hour must be in 0..23"
  else if ¬ (mi ≤ 59) then .error "minute must be in 0..59"
  else if ¬ (s ≤ 59) then .error "second must be in 0..59"
  else if ¬ (f ≤ 999999) then .error "microsecond must be in 0..999999"
  else
    match off with
    | some o =>
      if -86400000000 < o ∧ o < 86400000000 then
        .ok ⟨y, mo, d, h, mi, s, f, some o⟩
      else .error "offset must be strictly between -24 and 24 hours"
    | none => .ok ⟨y, mo, d, h, mi, s, f, none⟩

/-- Embeds `datetime.fromisoformat(s)`: date part is `s[0:10]`, time part is
`s[11:]` (character 10, the separator, is skipped unchecked); an empty
time part yields midnight. -/
def fromisoformat (s : String) : Except String PyDateTime :=
  let cs := s.data
  match parseIsoDate (cs.take 10) with
  | none => .error ("Invalid isoformat string: " ++ s)
  | some (y, mo, d) =>
    match cs.drop 11 with
    | [] => mkDatetime y mo d 0 0 0 0 none
    | tstr =>
      match parseIsoTime tstr with
      | none => .error ("Invalid isoformat string: " ++ s)
      | some (h, mi, sec, f, off) => mkDatetime y mo d h mi sec f off

/-! ### `strftime` and `format_datetime` -/

/-- Zero-pad a number to two digits (`%d`, `%m`, `%I`, `%M`). -/
def pad2 (n : Nat) : String :=
  if n < 10 then "0" ++ toString n else toString n

/-- Zero-pad a number to four digits (`%Y`). -/
def pad4 (n : Nat) : String :=
  if n < 10 then "000" ++ toString n
  else if n < 100 then "00" ++ toString n
  else if n < 1000 then "0" ++ toString n
  else toString n

/-- Embeds `dt.strftime("%Y-%m-%d")`. -/
def strfDate (dt : PyDateTime) : String :=
  pad4 dt.year ++ "-" ++ pad2 dt.month ++ "-" ++ pad2 dt.day

/-- Embeds `dt.strftime("%I:%M %p")`: zero-padded 12-hour clock with meridiem. -/
def strfTime12 (dt : PyDateTime) : String :=
  pad2 (if dt.hour % 12 = 0 then 12 else dt.hour % 12) ++ ":"
    ++ pad2 dt.minute ++ (if dt.hour < 12 then " AM" else " PM")

/-- Embeds `format_datetime(dt)`: `{}` for `None`, else the `date`/`time` pair. -/
def format_datetime : Option PyDateTime → Option (String × String)
  | none => none
  | some dt => some (strfDate dt, strfTime12 dt)

/-! ### Record Parser (`parse_call_duration`, `parse_call_datetime`,
`parse_messages`, `parse_file`) -/

/-- Python `text.strip("()")`: remove leading and trailing parenthesis
characters. -/
def stripParens (s : String) : String :=
  ⟨((s.data.dropWhile fun c => c = '(' || c = ')').reverse.dropWhile
      fun c => c = '(' || c = ')').reverse⟩

/-- Embeds `parse_call_duration(xml)`: display text of the first `duration`
element, trimmed of parentheses; `None` when element or text is absent. -/
def parse_call_duration (xml : Element) : Option String :=
  match findClass xml "duration" with
  | none => none
  | some el =>
    match el.text with
    | none => none
    | some t => some (stripParens t)

/-- Embeds `parse_call_datetime(xml)`: parse the `title` attribute of the first
`published` element; absent element gives `None`, but an element without
the attribute feeds the empty string to `fromisoformat`, which fails. -/
def parse_call_datetime (xml : Element) : Except String (Option PyDateTime) :=
  match findClass xml "published" with
  | none => .ok none
  | some el => (fromisoformat (el.getD "title" "")).map some

/-- Embeds `parse_message_datetime(xml)`: same as `parse_call_datetime` but for
the first nested `dt` element. -/
def parse_message_datetime (xml : Element) : Except String (Option PyDateTime) :=
  match findClass xml "dt" with
  | none => .ok none
  | some el => (fromisoformat (el.getD "title" "")).map some

/-- The message-thread fields produced by `parse_messages` when present. -/
structure MsgData where
  date : String
  time : String
  message_days : Int
  message_count : Nat
deriving Repr, DecidableEq

/-- Embeds `parse_messages(xml)`: collect `message` elements; with none, or when
the first or last of them has no `dt` marker, produce no fields at all;
otherwise date/time from the first message, day span first-to-last,
and the element count.  The first and the last timestamp are read (and
can fail) in that order, before the `if not (first and last)` check,
exactly as in the source. -/
def parse_messages (xml : Element) : Except String (Option MsgData) :=
  match findAllClass xml "message" with
  | [] => .ok none
  | m0 :: rest =>
    match parse_message_datetime m0 with
    | .error e => .error e
    | .ok firstD =>
      match parse_message_datetime ((m0 :: rest).getLast (by simp)) with
      | .error e => .error e
      | .ok lastD =>
        match firstD, lastD with
        | some f, some l =>
          match subDatetimeDays l f with
          | .error e => .error e
          | .ok days =>
            .ok (some ⟨strfDate f, strfTime12 f, days, (m0 :: rest).length⟩)
        | _, _ => .ok none

/-- The fields of the per-file dictionary returned by `parse_file`.
The `call_duration` key is always set (possibly to `None`); the others
are only set when derived. -/
structure FileRecord where
  call_duration : Option String
  date : Option String
  time : Option String
  message_days : Option Int
  message_count : Option Nat
deriving Repr, DecidableEq

/-- Embeds `parse_file` after the markup has been parsed into a tree: build the
dictionary `{call_duration, **format_datetime(parse_call_datetime(xml)),
**parse_messages(xml)}` — the message-derived `date`/`time` are merged
after, and hence override, the `published`-derived ones. -/
def parse_file (xml : Element) : Except String FileRecord :=
  match parse_call_datetime xml with
  | .error e => .error e
  | .ok cdt =>
    match parse_messages xml with
    | .error e => .error e
    | .ok msgs =>
      match msgs with
      | some m =>
        .ok ⟨parse_call_duration xml, some m.date, some m.time,
          some m.message_days, some m.message_count⟩
      | none =>
        match format_datetime cdt with
        | some (d, t) => .ok ⟨parse_call_duration xml, some d, some t, none, none⟩
        | none => .ok ⟨parse_call_duration xml, none, none, none, none⟩

/-! ## Filename Matcher (`CALL_PATTERN`, `match_calls`)

`re.match` of
`Takeout/Voice/(?P<directory>Calls|Spam)/(?P<contact>.*?) - (?P<type>.+?) - (?P<timestamp>.+?)\.html`
is embedded as an explicit backtracking search with the engine's
preference order: each lazy quantifier tries the shortest extent first
and grows only when the rest of the pattern fails.  `.` matches any
character except a newline; the match is anchored at the start only, so
trailing characters after `.html` are allowed. -/

/-- The literal ` - ` separator of the pattern. -/
def sepStr : List Char := [' ', '-', ' ']

/-- The literal `.html` suffix of the pattern. -/
def htmlExt : List Char := ['.', 'h', 't', 'm', 'l']

/-- Does `cs` begin with `pre`? -/
def beginsWith : List Char → List Char → Bool
  | [], _ => true
  | _ :: _, [] => false
  | p :: ps, c :: cs => p = c && beginsWith ps cs

/-- Drop a required literal, failing when it is not there. -/
def dropPre : List Char → List Char → Option (List Char)
  | [], cs => some cs
  | _ :: _, [] => none
  | p :: ps, c :: cs => if p = c then dropPre ps cs else none

/-- Embeds `(?P<timestamp>.+?)\.html`: the shortest non-empty newline-free
prefix followed by `.html`; returns the group and what follows `.html`. -/
def tsSearch : List Char → Option (List Char × List Char)
  | [] => none
  | c :: cs =>
    if c = '\n' then none
    else if beginsWith htmlExt cs then some ([c], cs.drop 5)
    else
      match tsSearch cs with
      | some (ts, r) => some (c :: ts, r)
      | none => none

/-- Embeds `(?P<type>.+?) - (?P<timestamp>.+?)\.html`: lazy `type` — stop at the
earliest ` - ` whose continuation succeeds, else grow by one character. -/
def typeSearch : List Char → Option (List Char × List Char × List Char)
  | [] => none
  | c :: cs =>
    if c = '\n' then none
    else
      match (if beginsWith sepStr cs then tsSearch (cs.drop 3) else none) with
      | some (ts, r) => some ([c], ts, r)
      | none =>
        match typeSearch cs with
        | some (t, ts, r) => some (c :: t, ts, r)
        | none => none

/-- Embeds `(?P<contact>.*?) - …`: lazy, possibly empty `contact` group.
(On the empty input the zero-length contact cannot be followed by the
separator, so the result is `none`, exactly as if the stop case had been
tried first.) -/
def contactSearch : List Char → Option (List Char × List Char × List Char × List Char)
  | [] => none
  | c :: cs2 =>
    match (if beginsWith sepStr (c :: cs2) then typeSearch ((c :: cs2).drop 3)
        else none) with
    | some (t, ts, r) => some ([], t, ts, r)
    | none =>
      if c = '\n' then none
      else
        match contactSearch cs2 with
        | some (co, t, ts, r) => some (c :: co, t, ts, r)
        | none => none

/-- The named groups of a `CALL_PATTERN` match. -/
structure MatchGroups where
  directory : String
  contact : String
  typ : String
  timestamp : String
deriving Repr, DecidableEq

/-- Embeds `re.match(CALL_PATTERN, path)` and its `groupdict()`. -/
def matchCallPath (path : String) : Option MatchGroups :=
  match dropPre "Takeout/Voice/".data path.data with
  | none => none
  | some r0 =>
    match (match dropPre "Calls/".data r0 with
      | some r => some (("Calls" : String), r)
      | none =>
        match dropPre "Spam/".data r0 with
        | some r => some (("Spam" : String), r)
        | none => none) with
    | none => none
    | some (dir, r1) =>
      match contactSearch r1 with
      | some (co, t, ts, _) => some ⟨dir, ⟨co⟩, ⟨t⟩, ⟨ts⟩⟩
      | none => none

/-- Embeds `match_calls(filenames)`: keep the matching paths with their groups,
silently skipping the rest. -/
def match_calls (filenames : List String) : List (String × MatchGroups) :=
  filenames.filterMap fun f => (matchCallPath f).map fun g => (f, g)

/-- Modelled from the spec's words, for comparison with `typeSearch`:
the spec describes the `type` group as matched *greedily*, so this
variant prefers the longest extent of `type` and shrinks only when the
rest of the pattern fails. -/
def typeSearchGreedy : List Char → Option (List Char × List Char × List Char)
  | [] => none
  | c :: cs =>
    if c = '\n' then none
    else
      match typeSearchGreedy cs with
      | some (t, ts, r) => some (c :: t, ts, r)
      | none =>
        match (if beginsWith sepStr cs then tsSearch (cs.drop 3) else none) with
        | some (ts, r) => some ([c], ts, r)
        | none => none

/-- Modelled from the spec's words: `contactSearch` but with the greedy
`type` group the spec describes. -/
def contactSearchSpec : List Char → Option (List Char × List Char × List Char × List Char)
  | [] => none
  | c :: cs2 =>
    match (if beginsWith sepStr (c :: cs2) then typeSearchGreedy ((c :: cs2).drop 3)
        else none) with
    | some (t, ts, r) => some ([], t, ts, r)
    | none =>
      if c = '\n' then none
      else
        match contactSearchSpec cs2 with
        | some (co, t, ts, r) => some (c :: co, t, ts, r)
        | none => none

/-- Modelled from the spec's words: the Filename Matcher with a greedy
`type` group and non-greedy `contact`/`timestamp` groups, exactly as
§4.1 of the spec states it. -/
def matchCallPathSpec (path : String) : Option MatchGroups :=
  match dropPre "Takeout/Voice/".data path.data with
  | none => none
  | some r0 =>
    match (match dropPre "Calls/".data r0 with
      | some r => some (("Calls" : String), r)
      | none =>
        match dropPre "Spam/".data r0 with
        | some r => some (("Spam" : String), r)
        | none => none) with
    | none => none
    | some (dir, r1) =>
      match contactSearchSpec r1 with
      | some (co, t, ts, _) => some ⟨dir, ⟨co⟩, ⟨t⟩, ⟨ts⟩⟩
      | none => none

/-! ## Pipeline Orchestrator (`parse_calls`, `parse_takeout`) -/

/-- One ConversationRecord as assembled by `parse_calls`: the match
groups, the formatted timestamp, the contact fields, and the per-file
fields.  `none` models an absent/`None` value. -/
structure CallRecord where
  filename : String
  directory : String
  contact : String
  typ : String
  timestamp : String
  contact_id : Option String
  contact_name : Option String
  date : Option String
  time : Option String
  call_duration : Option String
  message_days : Option Int
  message_count : Option Nat
deriving Repr, DecidableEq

/-- The dictionary-merge record construction of `parse_calls`: matcher
fields, `format_timestamp` overriding the raw `timestamp` group,
`format_contact` fields, `parse_file` fields. -/
def mkCallRecord (fn : String) (g : MatchGroups) (cf : ContactFields)
    (fr : FileRecord) : CallRecord :=
  ⟨fn, g.directory, g.contact, g.typ, format_timestamp g.timestamp,
    cf.contact_id, cf.contact_name, fr.date, fr.time,
    fr.call_duration, fr.message_days, fr.message_count⟩

/-- The archive-reading and tree-building half of `parse_file`
(`takeout.read`, the sanitization and `ET.fromstring`), abstracted as a
map from member name to parse outcome; a structural parse failure is
reported as `Error parsing {filename}`. -/
def parse_file_member (files : String → Except Unit Element)
    (filename : String) : Except String FileRecord :=
  match files filename with
  | .error _ => .error ("Error parsing " ++ filename)
  | .ok xml => parse_file xml

/-- Embeds `parse_calls`: fold over the matched files in order, threading the
stats and anonymization state, assembling one record per file; the first
raised error aborts everything. -/
def parse_calls (digest : String → String) (files : String → Except Unit Element) :
    List (String × MatchGroups) → ContactStats → AnonTable →
    Except String (List CallRecord × ContactStats × AnonTable)
  | [], st, tbl => .ok ([], st, tbl)
  | (fn, g) :: rest, st, tbl =>
    match format_contact digest st tbl g.contact with
    | (_, .error e) => .error e
    | (st2, .ok (cf, tbl2)) =>
      match parse_file_member files fn with
      | .error e => .error e
      | .ok fr =>
        match parse_calls digest files rest st2 tbl2 with
        | .error e => .error e
        | .ok (rs, stF, tblF) => .ok (mkCallRecord fn g cf fr :: rs, stF, tblF)

/-- The comparator of `sorted(calls, key=operator.itemgetter("timestamp"))`:
`a` may stay before `b` iff `b`'s timestamp is not smaller than `a`'s
(Python string comparison). -/
def recLe (a b : CallRecord) : Bool :=
  !(pyStrLt b.timestamp a.timestamp)

/-- The stats check at the end of `parse_takeout`. -/
def checkStats (st : ContactStats) : Except String Unit :=
  let contact_total := st.missing + st.numbers + st.names
  if contact_total ≠ st.total then
    .error ("Total contacts (" ++ toString st.total
      ++ ") != sum of each type (" ++ toString contact_total ++ ")")
  else .ok ()

/-- The ContactStats equation of §3 of the spec. -/
def statsOk (st : ContactStats) : Prop :=
  st.missing + st.numbers + st.names = st.total

/-- Predicate: the characters a `.` of the pattern may match (anything but
a newline). -/
def noNl (cs : List Char) : Prop :=
  ∀ c ∈ cs, c ≠ '\n'

instance (cs : List Char) : Decidable (noNl cs) := by
  unfold noNl
  infer_instance

/-- The full shape of a path matched by `CALL_PATTERN`, as one list
equation: the anchored literal prefix, the directory, the three groups
with their separators, the `.html` suffix, and arbitrary trailing
characters. -/
def pathShape (dir co t ts rest : List Char) : List Char :=
  "Takeout/Voice/".data ++ dir
    ++ '/' :: (co ++ sepStr ++ (t ++ sepStr ++ (ts ++ htmlExt ++ rest)))

/-- A well-formed raw filename timestamp: the fixed-width template
`YYYY-MM-DDTHH_MM_SSZ` with decimal digits at the digit positions. -/
def goodRawTs (s : String) : Prop :=
  ∃ y1 y2 y3 y4 o1 o2 d1 d2 h1 h2 mi1 mi2 s1 s2 : Char,
    [y1, y2, y3, y4, o1, o2, d1, d2, h1, h2,
      mi1, mi2, s1, s2].all Char.isDigit = true ∧
    s.data = [y1, y2, y3, y4, '-', o1, o2, '-', d1, d2, 'T',
      h1, h2, '_', mi1, mi2, '_', s1, s2, 'Z']

/-- Chronological key of a raw filename timestamp: the 14-digit numeral
`YYYYMMDDHHMMSS`.  For UTC timestamps with valid calendar fields, the
order of the instants they denote is exactly the order of the
(year, month, day, hour, minute, second) tuples, which — each field
having fixed width — is the numeric order of this numeral. -/
def tsChrono (s : String) : Nat :=
  digitsVal (s.data.filter Char.isDigit)

/-- Embeds `parse_takeout`: match the member names, parse every matched record,
sort stably by the `timestamp` string, then verify the ContactStats
equation, failing the run if it does not hold. -/
def parse_takeout (digest : String → String) (names : List String)
    (files : String → Except Unit Element) (st0 : ContactStats)
    (tbl0 : AnonTable) : Except String (List CallRecord) :=
  match parse_calls digest files (match_calls names) st0 tbl0 with
  | .error e => .error e
  | .ok (recs, st, _) =>
    let sortedRecs := recs.mergeSort recLe
    match checkStats st with
    | .error e => .error e
    | .ok _ => .ok sortedRecs

/-- Decidable equality of `Except` results, so concrete parse outcomes can
be settled by `decide`. -/
instance {ε α : Type _} [DecidableEq ε] [DecidableEq α] :
    DecidableEq (Except ε α) := fun a b =>
  match a, b with
  | .error x, .error y =>
    if h : x = y then .isTrue (by rw [h])
    else .isFalse (by intro hc; cases hc; exact h rfl)
  | .ok x, .ok y =>
    if h : x = y then .isTrue (by rw [h])
    else .isFalse (by intro hc; cases hc; exact h rfl)
  | .error _, .ok _ => .isFalse (by intro hc; cases hc)
  | .ok _, .error _ => .isFalse (by intro hc; cases hc)

/-! ## Concrete elements used as inputs of counterexamples and witnesses -/

/-- A markup tree carrying only a call-duration marker. -/
def callOnlyXml : Element :=
  .elem [] none (listToForest
    [.elem [("class", "duration"), ("title", "PT2M23S")] (some "(00:02:23)") .nil])

/-- One message element with a nested timestamp marker. -/
def msgElem (t : String) : Element :=
  .elem [("class", "message")] none (listToForest
    [.elem [("class", "dt"), ("title", t)] none .nil])

/-- A message element without any nested timestamp marker. -/
def msgElemNoDt : Element :=
  .elem [("class", "message")] none .nil

/-- A markup tree carrying both a duration marker and two messages with
timestamps — both kinds of role markers at once. -/
def bothMarkersXml : Element :=
  .elem [] none (listToForest
    [.elem [("class", "duration"), ("title", "PT2M23S")] (some "(00:02:23)") .nil,
     .elem [("class", "hChatLog hfeed")] none (listToForest
       [msgElem "2020-06-23T21:10:00.971-04:00",
        msgElem "2020-06-24T01:10:00-04:00"])])

/-- A markup tree with a published timestamp and two messages with
timestamps. -/
def pubAndMsgXml : Element :=
  .elem [] none (listToForest
    [.elem [("class", "published"), ("title", "2020-06-14T12:40:38.000-04:00")]
       (some "Jun 14") .nil,
     msgElem "2020-06-23T21:10:00.971-04:00",
     msgElem "2020-06-24T01:10:00-04:00"])

/-- A markup tree with a published timestamp and two messages of which the
last has no timestamp marker. -/
def lastNoDtXml : Element :=
  .elem [] none (listToForest
    [.elem [("class", "published"), ("title", "2020-06-14T12:40:38.000-04:00")]
       (some "Jun 14") .nil,
     msgElem "2020-06-23T21:10:00.971-04:00",
     msgElemNoDt])

/-- A markup tree whose published element has no `title` attribute. -/
def pubNoTitleXml : Element :=
  .elem [] none (listToForest
    [.elem [("class", "published")] (some "Jun 14") .nil])

/-- A markup tree with one message whose `dt` element has no `title`
attribute. -/
def dtNoTitleXml : Element :=
  .elem [] none (listToForest
    [.elem [("class", "message")] none (listToForest
      [.elem [("class", "dt")] none .nil])])

/-! # Theorems

One theorem (plus witness / counterexample where required) per claim,
with shared helper lemmas first. -/

/-! ## Helper lemmas: substrings and table lookup -/

/-- A right factor of a concatenation is a substring. -/
lemma strContains_right (x v : String) : strContains (x ++ v) v :=
  ⟨x.data, [], by simp [strContains, String.data_append]⟩

/-- A middle factor of a concatenation is a substring. -/
lemma strContains_mid (p c m v : String) : strContains (p ++ c ++ m ++ v) c :=
  ⟨p.data, m.data ++ v.data, by simp [strContains, String.data_append]⟩

/-- Appending a fresh key to the table makes it found. -/
lemma lookupTbl_append_self (tbl : AnonTable) (k v : String)
    (h : lookupTbl tbl k = none) : lookupTbl (tbl ++ [(k, v)]) k = some v := by
  induction tbl with
  | nil => simp [lookupTbl]
  | cons p rest ih =>
    obtain ⟨pk, pv⟩ := p
    by_cases hk : pk = k
    · simp [lookupTbl, hk] at h
    · simpa [lookupTbl, hk] using ih (by simpa [lookupTbl, hk] using h)

/-- A successful `anonymize` always returns the digest of its input. -/
lemma anonymize_ok_digest {digest : String → String} {tbl tbl2 : AnonTable}
    {v d : String} (h : anonymize digest tbl v = (tbl2, .ok d)) :
    d = digest v := by
  unfold anonymize at h
  rcases hl : lookupTbl tbl (digest v) with _ | cur
  · rw [hl] at h
    simp at h
    exact h.2.symm
  · rw [hl] at h
    by_cases hc : cur = v
    · simp [hc] at h
      exact h.2.symm
    · simp [hc] at h

/-! ## C1 — anonymization collision handling -/

/-- C1: if `anonymize` is called on a non-empty original whose digest is
already registered to a different original, it fails with an error whose
message contains both conflicting values and the table entry is not
overwritten; a call whose digest is registered to the same original
returns the digest with the table unchanged; a call with a fresh digest
registers it and returns it. -/
theorem C1_anonymize_registration (digest : String → String) (tbl : AnonTable)
    (value : String) (hval : value ≠ "") :
    (∀ cur, lookupTbl tbl (digest value) = some cur → cur ≠ value →
      anonymize digest tbl value =
        (tbl, .error ("Duplicate anonymization for " ++ cur ++ " and " ++ value)) ∧
      strContains ("Duplicate anonymization for " ++ cur ++ " and " ++ value) cur ∧
      strContains ("Duplicate anonymization for " ++ cur ++ " and " ++ value) value ∧
      lookupTbl (anonymize digest tbl value).1 (digest value) = some cur) ∧
    (lookupTbl tbl (digest value) = some value →
      anonymize digest tbl value = (tbl, .ok (digest value))) ∧
    (lookupTbl tbl (digest value) = none →
      anonymize digest tbl value =
        (tbl ++ [(digest value, value)], .ok (digest value)) ∧
      lookupTbl (anonymize digest tbl value).1 (digest value) = some value) := by
  refine ⟨?_, ?_, ?_⟩
  · intro cur hl hne
    have he : anonymize digest tbl value =
        (tbl, .error ("Duplicate anonymization for " ++ cur ++ " and " ++ value)) := by
      unfold anonymize
      rw [hl]
      simp [hne]
    refine ⟨he, ?_, ?_, ?_⟩
    · exact strContains_mid _ _ _ _
    · exact strContains_right _ _
    · rw [he]
      exact hl
  · intro hl
    unfold anonymize
    rw [hl]
    simp
  · intro hl
    have he : anonymize digest tbl value =
        (tbl ++ [(digest value, value)], .ok (digest value)) := by
      unfold anonymize
      rw [hl]
    refine ⟨he, ?_⟩
    rw [he]
    exact lookupTbl_append_self tbl _ value hl

/-- C1 witness: a concrete collision (digest function constantly `dd`,
table already mapping `dd` to `alice`, new value `bob`) fails with the
message naming both, leaving the entry for `alice` in place. -/
theorem C1_anonymize_registration_witness :
    anonymize (fun _ => "dd") [("dd", "alice")] "bob" =
      ([("dd", "alice")],
        .error ("Duplicate anonymization for " ++ "alice" ++ " and " ++ "bob")) ∧
    strContains ("Duplicate anonymization for " ++ "alice" ++ " and " ++ "bob") "alice" ∧
    strContains ("Duplicate anonymization for " ++ "alice" ++ " and " ++ "bob") "bob" ∧
    lookupTbl (anonymize (fun _ => "dd") [("dd", "alice")] "bob").1 "dd" = some "alice" :=
  (C1_anonymize_registration (fun _ => "dd") [("dd", "alice")] "bob"
    (by decide)).1 "alice" (by decide) (by decide)

/-! ## C5 — contact classification -/

/-- C5 counterexample: on the empty contact string, `format_contact` sets
`contact_name` to the empty string — a present value, not the `None` the
code uses for an absent field — so the record does not lack
`contact_name` as the claim states (the `contact_id` half and the
untouched table do hold). -/
theorem C5_empty_contact_counterexample :
    (format_contact (fun _ => "aaaa") initStats [] "").2 =
      .ok (⟨none, some ""⟩, []) ∧
    (some "" : Option String) ≠ none := by
  constructor
  · rfl
  · decide

/-- C5 (amended): a contact with a 10-digit run gets `contact_id` (the
digest) and no `contact_name`; a non-empty contact without such a run
gets both, the name being the original string; the empty contact gets no
`contact_id`, does not invoke `anonymize` (table untouched), and its
`contact_name` is set to the empty original string (which renders as
empty in the CSV) rather than being absent. -/
theorem C5_contact_classification (digest : String → String)
    (st : ContactStats) (tbl : AnonTable) (contact : String)
    (cf : ContactFields) (tbl2 : AnonTable)
    (hok : (format_contact digest st tbl contact).2 = .ok (cf, tbl2)) :
    (hasTenDigitRun contact.data = true →
      cf.contact_id = some (digest contact) ∧ cf.contact_name = none) ∧
    (hasTenDigitRun contact.data = false → contact ≠ "" →
      cf.contact_id = some (digest contact) ∧ cf.contact_name = some contact) ∧
    (contact = "" →
      cf.contact_id = none ∧ cf.contact_name = some contact ∧ tbl2 = tbl) := by
  by_cases hemp : contact = ""
  · subst hemp
    refine ⟨?_, ?_, ?_⟩
    · intro hrun
      exact absurd hrun (by decide)
    · intro _ hne
      exact absurd rfl hne
    · intro _
      simp only [format_contact, if_pos rfl] at hok
      have hrun : hasTenDigitRun ("" : String).data = false := by decide
      rw [hrun] at hok
      simp at hok
      obtain ⟨h1, h2⟩ := hok
      rw [← h1]
      exact ⟨rfl, rfl, h2.symm⟩
  · simp only [format_contact, if_neg hemp] at hok
    rcases ha : anonymize digest tbl contact with ⟨tbl3, r⟩
    rcases r with e | d
    · rw [ha] at hok
      simp at hok
    · rw [ha] at hok
      have hd : d = digest contact := anonymize_ok_digest ha
      subst hd
      rcases hrun : hasTenDigitRun contact.data with _ | _
      · rw [hrun] at hok
        simp at hok
        obtain ⟨h1, _⟩ := hok
        refine ⟨?_, ?_, ?_⟩
        · intro hc
          exact Bool.noConfusion hc
        · intro _ _
          rw [← h1]
          exact ⟨rfl, rfl⟩
        · intro hc
          exact absurd hc hemp
      · rw [hrun] at hok
        simp at hok
        obtain ⟨h1, _⟩ := hok
        refine ⟨?_, ?_, ?_⟩
        · intro _
          rw [← h1]
          exact ⟨rfl, rfl⟩
        · intro hc
          exact Bool.noConfusion hc
        · intro hc
          exact absurd hc hemp

/-- C5 witness: a phone-number-like concrete contact gets a `contact_id`
and no `contact_name`. -/
theorem C5_contact_classification_witness :
    (⟨some "zz", none⟩ : ContactFields).contact_id = some "zz" ∧
    (⟨some "zz", none⟩ : ContactFields).contact_name = none :=
  (C5_contact_classification (fun _ => "zz") initStats [] "+16175551234"
    ⟨some "zz", none⟩ [("zz", "+16175551234")] (by rfl)).1 (by decide)

/-! ## C6 — the ContactStats invariant and its end-of-run check -/

/-- C6: every `format_contact` invocation increments `total` once and
exactly one of the other three counters (which one being decided by the
classification), hence it preserves the stats equation; `checkStats`
succeeds exactly on states satisfying the equation; and `parse_takeout`
only succeeds when the final stats satisfy the equation, failing with a
hard error when a final state violates it. -/
theorem C6_stats_invariant :
    (∀ (digest : String → String) (st : ContactStats) (tbl : AnonTable)
        (contact : String),
      ((format_contact digest st tbl contact).1.total = st.total + 1) ∧
      (hasTenDigitRun contact.data = true →
        (format_contact digest st tbl contact).1.numbers = st.numbers + 1 ∧
        (format_contact digest st tbl contact).1.names = st.names ∧
        (format_contact digest st tbl contact).1.missing = st.missing) ∧
      (hasTenDigitRun contact.data = false → contact ≠ "" →
        (format_contact digest st tbl contact).1.names = st.names + 1 ∧
        (format_contact digest st tbl contact).1.numbers = st.numbers ∧
        (format_contact digest st tbl contact).1.missing = st.missing) ∧
      (contact = "" →
        (format_contact digest st tbl contact).1.missing = st.missing + 1 ∧
        (format_contact digest st tbl contact).1.numbers = st.numbers ∧
        (format_contact digest st tbl contact).1.names = st.names) ∧
      (statsOk st → statsOk (format_contact digest st tbl contact).1)) ∧
    (∀ st : ContactStats, checkStats st = .ok () ↔ statsOk st) ∧
    (∀ (digest : String → String) (names : List String)
        (files : String → Except Unit Element) (st0 : ContactStats)
        (tbl0 : AnonTable) (recs : List CallRecord),
      parse_takeout digest names files st0 tbl0 = .ok recs →
      ∃ rs stf tblf,
        parse_calls digest files (match_calls names) st0 tbl0 =
          .ok (rs, stf, tblf) ∧ statsOk stf) ∧
    (∀ (digest : String → String) (names : List String)
        (files : String → Except Unit Element) (st0 : ContactStats)
        (tbl0 : AnonTable) rs stf tblf,
      parse_calls digest files (match_calls names) st0 tbl0 =
        .ok (rs, stf, tblf) → ¬ statsOk stf →
      ∃ e, parse_takeout digest names files st0 tbl0 = .error e) := by
  have hchk : ∀ st : ContactStats, checkStats st = .ok () ↔ statsOk st := by
    intro st
    unfold checkStats statsOk
    by_cases h : st.missing + st.numbers + st.names = st.total
    · simp [h]
    · simp [h]
  refine ⟨?_, hchk, ?_, ?_⟩
  · intro digest st tbl contact
    by_cases hemp : contact = ""
    · subst hemp
      have hrunA : hasTenDigitRun ("" : String).data = false := by decide
      have hrunB : hasTenDigitRun ([] : List Char) = false := by decide
      refine ⟨?_, ?_, ?_, ?_, ?_⟩ <;>
        simp [format_contact, hrunA, hrunB, statsOk] <;> omega
    · rcases hrun : hasTenDigitRun contact.data with _ | _
      · refine ⟨?_, ?_, ?_, ?_, ?_⟩ <;>
          simp [format_contact, hrun, hemp, statsOk] <;> omega
      · refine ⟨?_, ?_, ?_, ?_, ?_⟩ <;>
          simp [format_contact, hrun, hemp, statsOk] <;> omega
  · intro digest names files st0 tbl0 recs hok
    unfold parse_takeout at hok
    rcases hp : parse_calls digest files (match_calls names) st0 tbl0 with e | ⟨rs, stf, tblf⟩
    · rw [hp] at hok
      cases hok
    · rw [hp] at hok
      dsimp only at hok
      refine ⟨rs, stf, tblf, rfl, ?_⟩
      rcases hc : checkStats stf with e2 | u
      · rw [hc] at hok
        cases hok
      · cases u
        exact (hchk stf).mp hc
  · intro digest names files st0 tbl0 rs stf tblf hp hbad
    rcases hc : checkStats stf with e2 | u
    · refine ⟨e2, ?_⟩
      unfold parse_takeout
      rw [hp]
      dsimp only
      rw [hc]
    · cases u
      exact absurd ((hchk stf).mp hc) hbad

/-- C6 witness: the empty pipeline — no matched files — ends with the
initial stats, which satisfy the equation, and the run succeeds. -/
theorem C6_stats_invariant_witness :
    ∃ rs stf tblf,
      parse_calls (fun _ => "d") (fun _ => .error ()) (match_calls []) initStats [] =
        .ok (rs, stf, tblf) ∧ statsOk stf :=
  (C6_stats_invariant).2.2.1 (fun _ => "d") [] (fun _ => .error ()) initStats [] []
    (by simp [parse_takeout, match_calls, parse_calls, List.mergeSort_nil,
      checkStats, initStats])

/-! ## C7 — the timestamp formatter on well-formed filename timestamps -/

/-- A decimal digit is not an underscore. -/
lemma digit_ne_und {c : Char} (h : c.isDigit = true) : ¬ c = '_' := by
  intro he
  subst he
  exact absurd h (by decide)

/-- A decimal digit is not a `Z`. -/
lemma digit_ne_Z {c : Char} (h : c.isDigit = true) : ¬ c = 'Z' := by
  intro he
  subst he
  exact absurd h (by decide)

/-- Shape of `format_timestamp` on a well-formed filename timestamp:
underscores become colons, the trailing `Z` becomes `+00:00`. -/
lemma format_timestamp_shape (y1 y2 y3 y4 o1 o2 d1 d2 h1 h2 mi1 mi2 s1 s2 : Char)
    (hy1 : y1.isDigit = true) (hy2 : y2.isDigit = true)
    (hy3 : y3.isDigit = true) (hy4 : y4.isDigit = true)
    (ho1 : o1.isDigit = true) (ho2 : o2.isDigit = true)
    (hd1 : d1.isDigit = true) (hd2 : d2.isDigit = true)
    (hh1 : h1.isDigit = true) (hh2 : h2.isDigit = true)
    (hm1 : mi1.isDigit = true) (hm2 : mi2.isDigit = true)
    (hs1 : s1.isDigit = true) (hs2 : s2.isDigit = true) :
    format_timestamp
      ⟨[y1, y2, y3, y4, '-', o1, o2, '-', d1, d2, 'T',
        h1, h2, '_', mi1, mi2, '_', s1, s2, 'Z']⟩ =
    ⟨[y1, y2, y3, y4, '-', o1, o2, '-', d1, d2, 'T',
      h1, h2, ':', mi1, mi2, ':', s1, s2, '+', '0', '0', ':', '0', '0']⟩ := by
  simp [format_timestamp, replaceUnd, replaceZ,
    digit_ne_und hy1, digit_ne_und hy2, digit_ne_und hy3, digit_ne_und hy4,
    digit_ne_und ho1, digit_ne_und ho2, digit_ne_und hd1, digit_ne_und hd2,
    digit_ne_und hh1, digit_ne_und hh2, digit_ne_und hm1, digit_ne_und hm2,
    digit_ne_und hs1, digit_ne_und hs2,
    digit_ne_Z hy1, digit_ne_Z hy2, digit_ne_Z hy3, digit_ne_Z hy4,
    digit_ne_Z ho1, digit_ne_Z ho2, digit_ne_Z hd1, digit_ne_Z hd2,
    digit_ne_Z hh1, digit_ne_Z hh2, digit_ne_Z hm1, digit_ne_Z hm2,
    digit_ne_Z hs1, digit_ne_Z hs2]

/-- C7: on every filename timestamp of the shape `YYYY-MM-DDTHH_MM_SSZ`
(digits at the digit positions), `format_timestamp` replaces the two
underscores by colons and the trailing `Z` by `+00:00`. -/
theorem C7_format_timestamp (y1 y2 y3 y4 o1 o2 d1 d2 h1 h2 mi1 mi2 s1 s2 : Char)
    (hy1 : y1.isDigit = true) (hy2 : y2.isDigit = true)
    (hy3 : y3.isDigit = true) (hy4 : y4.isDigit = true)
    (ho1 : o1.isDigit = true) (ho2 : o2.isDigit = true)
    (hd1 : d1.isDigit = true) (hd2 : d2.isDigit = true)
    (hh1 : h1.isDigit = true) (hh2 : h2.isDigit = true)
    (hm1 : mi1.isDigit = true) (hm2 : mi2.isDigit = true)
    (hs1 : s1.isDigit = true) (hs2 : s2.isDigit = true) :
    format_timestamp
      ⟨[y1, y2, y3, y4, '-', o1, o2, '-', d1, d2, 'T',
        h1, h2, '_', mi1, mi2, '_', s1, s2, 'Z']⟩ =
    ⟨[y1, y2, y3, y4, '-', o1, o2, '-', d1, d2, 'T',
      h1, h2, ':', mi1, mi2, ':', s1, s2, '+', '0', '0', ':', '0', '0']⟩ :=
  format_timestamp_shape y1 y2 y3 y4 o1 o2 d1 d2 h1 h2 mi1 mi2 s1 s2
    hy1 hy2 hy3 hy4 ho1 ho2 hd1 hd2 hh1 hh2 hm1 hm2 hs1 hs2

/-- C7 witness: the round-trip example of the spec. -/
theorem C7_format_timestamp_witness :
    format_timestamp "2020-08-21T18_57_10Z" = "2020-08-21T18:57:10+00:00" :=
  C7_format_timestamp '2' '0' '2' '0' '0' '8' '2' '1' '1' '8' '5' '7' '1' '0'
    (by decide) (by decide) (by decide) (by decide) (by decide) (by decide)
    (by decide) (by decide) (by decide) (by decide) (by decide) (by decide)
    (by decide) (by decide)

/-! ## C3 — missing `title` attribute on a present timestamp element -/

/-- C3 counterexample: a `published` (resp. `dt`) element that lacks the
`title` attribute does not yield an absent timestamp — the empty default
is fed to `fromisoformat`, which raises. -/
theorem C3_missing_title_counterexample :
    parse_call_datetime pubNoTitleXml = .error ("Invalid isoformat string: " ++ "") ∧
    parse_call_datetime pubNoTitleXml ≠ .ok none ∧
    parse_message_datetime dtNoTitleXml = .error ("Invalid isoformat string: " ++ "") ∧
    parse_message_datetime dtNoTitleXml ≠ .ok none := by
  refine ⟨by decide, by decide, by decide, by decide⟩

/-- C3 (amended): a record file with no `published` (resp. `dt`) element
yields an absent timestamp; but a *present* element lacking the `title`
attribute is an error — the empty string is parsed and rejected — just
like malformed timestamp text in a present attribute; well-formed text
parses to a present timestamp. -/
theorem C3_timestamp_attribute_handling (xml : Element) :
    (findClass xml "published" = none → parse_call_datetime xml = .ok none) ∧
    (∀ el, findClass xml "published" = some el → el.attr "title" = none →
      parse_call_datetime xml = .error ("Invalid isoformat string: " ++ "")) ∧
    (∀ el s e, findClass xml "published" = some el → el.attr "title" = some s →
      fromisoformat s = .error e → parse_call_datetime xml = .error e) ∧
    (∀ el s d, findClass xml "published" = some el → el.attr "title" = some s →
      fromisoformat s = .ok d → parse_call_datetime xml = .ok (some d)) ∧
    (findClass xml "dt" = none → parse_message_datetime xml = .ok none) ∧
    (∀ el, findClass xml "dt" = some el → el.attr "title" = none →
      parse_message_datetime xml = .error ("Invalid isoformat string: " ++ "")) ∧
    (∀ el s e, findClass xml "dt" = some el → el.attr "title" = some s →
      fromisoformat s = .error e → parse_message_datetime xml = .error e) ∧
    (∀ el s d, findClass xml "dt" = some el → el.attr "title" = some s →
      fromisoformat s = .ok d → parse_message_datetime xml = .ok (some d)) := by
  refine ⟨?_, ?_, ?_, ?_, ?_, ?_, ?_, ?_⟩
  · intro h
    unfold parse_call_datetime
    rw [h]
  · intro el h ht
    unfold parse_call_datetime
    rw [h]
    dsimp only
    unfold Element.getD
    rw [ht]
    rfl
  · intro el s e h ht he
    unfold parse_call_datetime
    rw [h]
    dsimp only
    unfold Element.getD
    rw [ht]
    dsimp only [Option.getD]
    rw [he]
    rfl
  · intro el s d h ht hd
    unfold parse_call_datetime
    rw [h]
    dsimp only
    unfold Element.getD
    rw [ht]
    dsimp only [Option.getD]
    rw [hd]
    rfl
  · intro h
    unfold parse_message_datetime
    rw [h]
  · intro el h ht
    unfold parse_message_datetime
    rw [h]
    dsimp only
    unfold Element.getD
    rw [ht]
    rfl
  · intro el s e h ht he
    unfold parse_message_datetime
    rw [h]
    dsimp only
    unfold Element.getD
    rw [ht]
    dsimp only [Option.getD]
    rw [he]
    rfl
  · intro el s d h ht hd
    unfold parse_message_datetime
    rw [h]
    dsimp only
    unfold Element.getD
    rw [ht]
    dsimp only [Option.getD]
    rw [hd]
    rfl

/-- C3 witness: the absent-element branch and the well-formed branch of
the amended statement at concrete inputs. -/
theorem C3_timestamp_attribute_handling_witness :
    parse_call_datetime callOnlyXml = .ok none ∧
    parse_message_datetime (msgElem "2020-06-23T21:10:00.971-04:00") =
      .ok (some ⟨2020, 6, 23, 21, 10, 0, 971000, some (-14400000000)⟩) :=
  ⟨(C3_timestamp_attribute_handling callOnlyXml).1 (by rfl),
    (C3_timestamp_attribute_handling
      (msgElem "2020-06-23T21:10:00.971-04:00")).2.2.2.2.2.2.2
      (.elem [("class", "dt"), ("title", "2020-06-23T21:10:00.971-04:00")] none .nil)
      "2020-06-23T21:10:00.971-04:00" _ (by rfl) (by rfl) (by decide)⟩

/-! ## C2 — call fields versus message fields -/

/-- C2 counterexample: a markup containing both a duration marker and
message markers produces a record with the call field and the message
fields all present at once. -/
theorem C2_both_fields_counterexample :
    Except.map (fun r => (r.call_duration, r.message_days, r.message_count))
      (parse_file bothMarkersXml) =
    .ok (some "00:02:23", some (0 : Int), some 2) := by
  decide

/-- C2 (amended): in every record produced, `call_duration` is exactly the
duration-marker text and the two message fields stand or fall together;
consequently exactly one of {call fields, message fields, neither} holds
for every markup that does not carry both a duration marker (with text)
and message markers — but the code does not enforce the exclusivity, and
a markup carrying both yields a record with both. -/
theorem C2_field_exclusivity (xml : Element) (r : FileRecord)
    (hr : parse_file xml = .ok r) :
    r.call_duration = parse_call_duration xml ∧
    r.message_days.isSome = r.message_count.isSome ∧
    ((parse_call_duration xml = none ∨ findAllClass xml "message" = []) →
      ¬ (r.call_duration.isSome = true ∧ r.message_count.isSome = true)) := by
  unfold parse_file at hr
  rcases hc : parse_call_datetime xml with e | cdt
  · rw [hc] at hr
    cases hr
  · rw [hc] at hr
    dsimp only at hr
    rcases hm : parse_messages xml with e | msgs
    · rw [hm] at hr
      cases hr
    · rw [hm] at hr
      dsimp only at hr
      rcases msgs with _ | m
      · rcases hf : format_datetime cdt with _ | ⟨d, t⟩
        · rw [hf] at hr
          cases hr
          exact ⟨rfl, rfl, fun _ hboth => by cases hboth.2⟩
        · rw [hf] at hr
          cases hr
          exact ⟨rfl, rfl, fun _ hboth => by cases hboth.2⟩
      · cases hr
        refine ⟨rfl, rfl, ?_⟩
        rintro (hdur | hmsgs) hboth
        · rw [hdur] at hboth
          cases hboth.1
        · unfold parse_messages at hm
          rw [hmsgs] at hm
          exact Option.noConfusion (Except.ok.inj hm)

/-- C2 witness: a call-only markup yields a record with the call field
and no message fields. -/
theorem C2_field_exclusivity_witness :
    (⟨some "00:02:23", none, none, none, none⟩ : FileRecord).call_duration =
      parse_call_duration callOnlyXml ∧
    (⟨some "00:02:23", none, none, none, none⟩ : FileRecord).message_days.isSome =
      (⟨some "00:02:23", none, none, none, none⟩ : FileRecord).message_count.isSome ∧
    ((parse_call_duration callOnlyXml = none ∨ findAllClass callOnlyXml "message" = []) →
      ¬ ((⟨some "00:02:23", none, none, none, none⟩ : FileRecord).call_duration.isSome = true ∧
        (⟨some "00:02:23", none, none, none, none⟩ : FileRecord).message_count.isSome = true)) :=
  C2_field_exclusivity callOnlyXml ⟨some "00:02:23", none, none, none, none⟩ (by decide)

/-! ## C9 — message-derived date/time override the published ones -/

/-- C9: when a record file has both a parsed `published` timestamp and
message fields, the record's `date`/`time` are the message-derived ones
(merged last), and those are formatted from the *first* message's
timestamp. -/
theorem C9_message_time_overrides_published (xml : Element) (p : PyDateTime)
    (m : MsgData) (r : FileRecord)
    (hp : parse_call_datetime xml = .ok (some p))
    (hm : parse_messages xml = .ok (some m))
    (hr : parse_file xml = .ok r) :
    r.date = some m.date ∧ r.time = some m.time ∧
    (∀ m0 rest f, findAllClass xml "message" = m0 :: rest →
      parse_message_datetime m0 = .ok (some f) →
      m.date = strfDate f ∧ m.time = strfTime12 f) := by
  unfold parse_file at hr
  rw [hp] at hr
  dsimp only at hr
  rw [hm] at hr
  dsimp only at hr
  cases hr
  refine ⟨rfl, rfl, ?_⟩
  intro m0 rest f hfind hf
  unfold parse_messages at hm
  rw [hfind] at hm
  dsimp only at hm
  rw [hf] at hm
  dsimp only at hm
  rcases hl2 : parse_message_datetime ((m0 :: rest).getLast (by simp)) with e | lastD
  · rw [hl2] at hm
    cases hm
  · rw [hl2] at hm
    rcases lastD with _ | l
    · dsimp only at hm
      exact Option.noConfusion (Except.ok.inj hm)
    · dsimp only at hm
      rcases hd : subDatetimeDays l f with e | days
      · rw [hd] at hm
        cases hm
      · rw [hd] at hm
        dsimp only at hm
        cases hm
        exact ⟨rfl, rfl⟩

/-- C9 witness: a concrete file with a published timestamp
(`2020-06-14 12:40 PM`) and two messages starting `2020-06-23 09:10 PM`
gets the message-derived date and time, which come from the first
message's timestamp. -/
theorem C9_message_time_overrides_published_witness :
    (⟨none, some "2020-06-23", some "09:10 PM", some 0, some 2⟩ :
        FileRecord).date = some "2020-06-23" ∧
    (⟨none, some "2020-06-23", some "09:10 PM", some 0, some 2⟩ :
        FileRecord).time = some "09:10 PM" ∧
    ("2020-06-23" : String) =
      strfDate ⟨2020, 6, 23, 21, 10, 0, 971000, some (-14400000000)⟩ ∧
    ("09:10 PM" : String) =
      strfTime12 ⟨2020, 6, 23, 21, 10, 0, 971000, some (-14400000000)⟩ := by
  have h := C9_message_time_overrides_published pubAndMsgXml
    ⟨2020, 6, 14, 12, 40, 38, 0, some (-14400000000)⟩
    ⟨"2020-06-23", "09:10 PM", 0, 2⟩
    ⟨none, some "2020-06-23", some "09:10 PM", some 0, some 2⟩
    (by decide) (by decide) (by decide)
  have h3 := h.2.2 (msgElem "2020-06-23T21:10:00.971-04:00")
    [msgElem "2020-06-24T01:10:00-04:00"]
    ⟨2020, 6, 23, 21, 10, 0, 971000, some (-14400000000)⟩
    (by rfl) (by decide)
  exact ⟨h.1, h.2.1, h3.1, h3.2⟩

/-! ## C10 — a message thread missing a first/last timestamp marker -/

/-- C10: when a record file has message elements but the first or the
last of them carries no nested `dt` marker, all message fields are
absent — including `message_count`, despite the messages existing — and
`date`/`time` fall back to the published-derived values (absent when
those are absent too). -/
theorem C10_missing_dt_drops_message_fields (xml : Element) (m0 ml : Element)
    (rest : List Element) (r : FileRecord)
    (hfind : findAllClass xml "message" = m0 :: rest)
    (hlast : (m0 :: rest).getLast (by simp) = ml)
    (hnone : findClass m0 "dt" = none ∨ findClass ml "dt" = none)
    (hr : parse_file xml = .ok r) :
    parse_messages xml = .ok none ∧
    r.message_days = none ∧ r.message_count = none ∧
    (∀ od, parse_call_datetime xml = .ok od →
      r.date = Option.map Prod.fst (format_datetime od) ∧
      r.time = Option.map Prod.snd (format_datetime od)) := by
  unfold parse_file at hr
  rcases hc : parse_call_datetime xml with e | cdt
  · rw [hc] at hr
    cases hr
  · rw [hc] at hr
    dsimp only at hr
    rcases hm : parse_messages xml with e | msgs
    · rw [hm] at hr
      cases hr
    · rw [hm] at hr
      dsimp only at hr
      have hmn : msgs = none := by
        unfold parse_messages at hm
        rw [hfind] at hm
        dsimp only at hm
        rw [hlast] at hm
        rcases hnone with h0 | hL
        · have h0' : parse_message_datetime m0 = .ok none := by
            unfold parse_message_datetime
            rw [h0]
          rw [h0'] at hm
          dsimp only at hm
          rcases hl2 : parse_message_datetime ml with e | lastD
          · rw [hl2] at hm
            cases hm
          · rw [hl2] at hm
            dsimp only at hm
            exact (Except.ok.inj hm).symm
        · have hL' : parse_message_datetime ml = .ok none := by
            unfold parse_message_datetime
            rw [hL]
          rcases hf0 : parse_message_datetime m0 with e | firstD
          · rw [hf0] at hm
            cases hm
          · rw [hf0] at hm
            dsimp only at hm
            rw [hL'] at hm
            rcases firstD with _ | f
            · dsimp only at hm
              exact (Except.ok.inj hm).symm
            · dsimp only at hm
              exact (Except.ok.inj hm).symm
      subst hmn
      rcases hfd : format_datetime cdt with _ | ⟨d, t⟩
      · rw [hfd] at hr
        cases hr
        refine ⟨rfl, rfl, rfl, ?_⟩
        intro od hod
        have hoc : od = cdt := (Except.ok.inj hod).symm
        subst hoc
        rw [hfd]
        exact ⟨rfl, rfl⟩
      · rw [hfd] at hr
        cases hr
        refine ⟨rfl, rfl, rfl, ?_⟩
        intro od hod
        have hoc : od = cdt := (Except.ok.inj hod).symm
        subst hoc
        rw [hfd]
        exact ⟨rfl, rfl⟩

/-- C10 witness: a concrete file whose second (last) message has no `dt`
marker keeps `message_days`/`message_count` absent and derives
`date`/`time` from the published timestamp. -/
theorem C10_missing_dt_drops_message_fields_witness :
    parse_messages lastNoDtXml = .ok none ∧
    (⟨none, some "2020-06-14", some "12:40 PM", none, none⟩ :
        FileRecord).message_days = none ∧
    (⟨none, some "2020-06-14", some "12:40 PM", none, none⟩ :
        FileRecord).message_count = none ∧
    (⟨none, some "2020-06-14", some "12:40 PM", none, none⟩ :
        FileRecord).date =
      Option.map Prod.fst (format_datetime
        (some ⟨2020, 6, 14, 12, 40, 38, 0, some (-14400000000)⟩)) := by
  have h := C10_missing_dt_drops_message_fields lastNoDtXml
    (msgElem "2020-06-23T21:10:00.971-04:00") msgElemNoDt
    [msgElemNoDt]
    ⟨none, some "2020-06-14", some "12:40 PM", none, none⟩
    (by rfl) (by rfl) (Or.inr (by rfl)) (by decide)
  exact ⟨h.1, h.2.1, h.2.2.1,
    (h.2.2.2 (some ⟨2020, 6, 14, 12, 40, 38, 0, some (-14400000000)⟩)
      (by decide)).1⟩

/-! ## C4 — the Filename Matcher

Soundness, completeness and laziness of the backtracking search, group
by group from the innermost (`timestamp`) outwards. -/

/-- Characterization of `beginsWith`. -/
lemma beginsWith_iff (p cs : List Char) :
    beginsWith p cs = true ↔ ∃ r, cs = p ++ r := by
  induction p generalizing cs with
  | nil =>
    simp [beginsWith]
  | cons p0 ps ih =>
    cases cs with
    | nil => simp [beginsWith]
    | cons c cs2 =>
      simp only [beginsWith, Bool.and_eq_true, decide_eq_true_eq, ih,
        List.cons_append, List.cons.injEq]
      constructor
      · rintro ⟨he, r, hr⟩
        exact ⟨r, he.symm, hr⟩
      · rintro ⟨r, he, hr⟩
        exact ⟨he.symm, r, hr⟩

/-- Characterization of `dropPre`. -/
lemma dropPre_eq_some (p : List Char) : ∀ (cs r : List Char),
    dropPre p cs = some r ↔ cs = p ++ r := by
  induction p with
  | nil =>
    intro cs r
    simp [dropPre, eq_comm]
  | cons p0 ps ih =>
    intro cs r
    cases cs with
    | nil => simp [dropPre]
    | cons c cs2 =>
      by_cases h : p0 = c
      · subst h
        simp [dropPre, ih]
      · simp only [dropPre, if_neg h, List.cons_append, List.cons.injEq]
        constructor
        · intro hc
          cases hc
        · rintro ⟨he, _⟩
          exact absurd he.symm h

/-- Soundness of the `timestamp` search: a hit decomposes the input. -/
lemma tsSearch_sound : ∀ (cs ts r : List Char), tsSearch cs = some (ts, r) →
    cs = ts ++ htmlExt ++ r ∧ ts ≠ [] ∧ noNl ts := by
  intro cs
  induction cs with
  | nil =>
    intro ts r h
    simp [tsSearch] at h
  | cons c cs2 ih =>
    intro ts r h
    unfold tsSearch at h
    by_cases hnl : c = '\n'
    · rw [if_pos hnl] at h
      cases h
    · rw [if_neg hnl] at h
      by_cases hb : beginsWith htmlExt cs2 = true
      · rw [if_pos hb] at h
        cases h
        obtain ⟨r0, hr0⟩ := (beginsWith_iff _ _).mp hb
        subst hr0
        refine ⟨?_, by simp, ?_⟩
        · have : htmlExt.length = 5 := rfl
          rw [List.drop_append_of_le_length (by simp [this])]
          simp [this]
        · intro x hx
          simp at hx
          subst hx
          exact hnl
      · rw [if_neg hb] at h
        rcases ht : tsSearch cs2 with _ | ⟨ts0, r0⟩
        · rw [ht] at h
          cases h
        · rw [ht] at h
          injection h with h'
          injection h' with hts hr
          subst hts
          subst hr
          obtain ⟨h1, _, h3⟩ := ih ts0 r0 ht
          refine ⟨by rw [h1]; simp, by simp, ?_⟩
          intro x hx
          rcases List.mem_cons.mp hx with hx2 | hx2
          · subst hx2
            exact hnl
          · exact h3 x hx2

/-- Completeness of the `timestamp` search: any decomposition makes it
hit. -/
lemma tsSearch_complete : ∀ (ts cs r : List Char),
    cs = ts ++ htmlExt ++ r → ts ≠ [] → noNl ts →
    (tsSearch cs).isSome = true := by
  intro ts
  induction ts with
  | nil =>
    intro cs r _ hne _
    exact absurd rfl hne
  | cons a ts' ih =>
    intro cs r h _ hnl
    subst h
    have hna : a ≠ '\n' := hnl a (by simp)
    simp only [List.cons_append]
    unfold tsSearch
    rw [if_neg hna]
    by_cases hb : beginsWith htmlExt (ts' ++ htmlExt ++ r) = true
    · rw [if_pos hb]
      simp
    · rw [if_neg hb]
      have hts' : ts' ≠ [] := by
        intro he
        subst he
        exact hb ((beginsWith_iff _ _).mpr ⟨r, by simp⟩)
      have hrec := ih (ts' ++ htmlExt ++ r) r rfl hts'
        (fun x hx => hnl x (by simp [hx]))
      rcases hts : tsSearch (ts' ++ htmlExt ++ r) with _ | ⟨ts0, r0⟩
      · rw [hts] at hrec
        simp at hrec
      · rfl

/-- Laziness of the `timestamp` search: the hit is the shortest valid
group. -/
lemma tsSearch_minimal : ∀ (cs ts r : List Char), tsSearch cs = some (ts, r) →
    ∀ ts2 r2, cs = ts2 ++ htmlExt ++ r2 → ts2 ≠ [] → noNl ts2 →
    ts.length ≤ ts2.length := by
  intro cs
  induction cs with
  | nil =>
    intro ts r h
    simp [tsSearch] at h
  | cons c cs2 ih =>
    intro ts r h ts2 r2 h2 hne2 hnl2
    unfold tsSearch at h
    by_cases hnl : c = '\n'
    · rw [if_pos hnl] at h
      cases h
    · rw [if_neg hnl] at h
      by_cases hb : beginsWith htmlExt cs2 = true
      · rw [if_pos hb] at h
        cases h
        simpa using Nat.one_le_iff_ne_zero.mpr
          (fun h0 => hne2 (List.length_eq_zero.mp h0))
      · rw [if_neg hb] at h
        rcases ht : tsSearch cs2 with _ | ⟨ts0, r0⟩
        · rw [ht] at h
          cases h
        · rw [ht] at h
          injection h with h'
          injection h' with hts hr
          subst hts
          subst hr
          rcases ts2 with _ | ⟨a, ts2'⟩
          · exact absurd rfl hne2
          · simp only [List.cons_append, List.cons.injEq] at h2
            obtain ⟨hca, hcs⟩ := h2
            have hts2' : ts2' ≠ [] := by
              intro he
              subst he
              exact hb ((beginsWith_iff _ _).mpr ⟨r2, by simpa using hcs⟩)
            have := ih ts0 r0 ht ts2' r2 hcs hts2'
              (fun x hx => hnl2 x (by simp [hx]))
            simpa using Nat.succ_le_succ this

/-- Dropping the separator length from a separator-prefixed list. -/
lemma drop_sep_append (rest : List Char) : (sepStr ++ rest).drop 3 = rest := by
  rfl

/-- Dropping the suffix length from a suffix-prefixed list. -/
lemma drop_html_append (rest : List Char) : (htmlExt ++ rest).drop 5 = rest := by
  rfl

/-- Soundness of the `type` search: a hit splits off a non-empty group
followed by the separator, on whose remainder the `timestamp` search
hits. -/
lemma typeSearch_sound : ∀ (cs t ts r : List Char),
    typeSearch cs = some (t, ts, r) →
    ∃ rest, cs = t ++ sepStr ++ rest ∧ t ≠ [] ∧ noNl t ∧
      tsSearch rest = some (ts, r) := by
  intro cs
  induction cs with
  | nil =>
    intro t ts r h
    simp [typeSearch] at h
  | cons c cs2 ih =>
    intro t ts r h
    unfold typeSearch at h
    by_cases hnl : c = '\n'
    · rw [if_pos hnl] at h
      cases h
    · rw [if_neg hnl] at h
      rcases hA : (if beginsWith sepStr cs2 = true then tsSearch (cs2.drop 3)
          else none) with _ | ⟨ts0, r0⟩
      · rw [hA] at h
        rcases ht : typeSearch cs2 with _ | ⟨t0, ts0, r0⟩
        · rw [ht] at h
          cases h
        · rw [ht] at h
          injection h with h'
          injection h' with h1 h2
          injection h2 with h3 h4
          subst h1
          subst h3
          subst h4
          obtain ⟨rest, hr1, _, hr3, hr4⟩ := ih t0 ts0 r0 ht
          refine ⟨rest, by rw [hr1]; simp, by simp, ?_, hr4⟩
          intro x hx
          rcases List.mem_cons.mp hx with hx2 | hx2
          · subst hx2
            exact hnl
          · exact hr3 x hx2
      · rw [hA] at h
        injection h with h'
        injection h' with h1 h2
        injection h2 with h3 h4
        subst h1
        subst h3
        subst h4
        by_cases hbs : beginsWith sepStr cs2 = true
        · rw [if_pos hbs] at hA
          obtain ⟨rest, hrest⟩ := (beginsWith_iff _ _).mp hbs
          subst hrest
          rw [drop_sep_append] at hA
          refine ⟨rest, by simp, by simp, ?_, hA⟩
          intro x hx
          simp at hx
          subst hx
          exact hnl
        · rw [if_neg hbs] at hA
          cases hA

/-- Completeness of the `type` search. -/
lemma typeSearch_complete : ∀ (t cs rest : List Char),
    cs = t ++ sepStr ++ rest → t ≠ [] → noNl t →
    (tsSearch rest).isSome = true → (typeSearch cs).isSome = true := by
  intro t
  induction t with
  | nil =>
    intro cs rest _ hne _ _
    exact absurd rfl hne
  | cons a t' ih =>
    intro cs rest h _ hnl hts
    subst h
    have hna : a ≠ '\n' := hnl a (by simp)
    simp only [List.cons_append]
    unfold typeSearch
    rw [if_neg hna]
    rcases hA : (if beginsWith sepStr (t' ++ sepStr ++ rest) = true then
        tsSearch ((t' ++ sepStr ++ rest).drop 3) else none) with _ | ⟨ts0, r0⟩
    · have ht' : t' ≠ [] := by
        intro he
        subst he
        rw [if_pos ((beginsWith_iff _ _).mpr ⟨rest, by simp⟩)] at hA
        rw [List.nil_append, drop_sep_append] at hA
        rw [hA] at hts
        simp at hts
      have hrec := ih (t' ++ sepStr ++ rest) rest rfl ht'
        (fun x hx => hnl x (by simp [hx])) hts
      rcases htr : typeSearch (t' ++ sepStr ++ rest) with _ | ⟨t0, ts0, r0⟩
      · rw [htr] at hrec
        simp at hrec
      · rfl
    · rfl

/-- Laziness of the `type` search: the hit has the shortest valid `type`
group. -/
lemma typeSearch_minimal : ∀ (cs t ts r : List Char),
    typeSearch cs = some (t, ts, r) →
    ∀ t2 rest2, cs = t2 ++ sepStr ++ rest2 → t2 ≠ [] → noNl t2 →
    (tsSearch rest2).isSome = true → t.length ≤ t2.length := by
  intro cs
  induction cs with
  | nil =>
    intro t ts r h
    simp [typeSearch] at h
  | cons c cs2 ih =>
    intro t ts r h t2 rest2 h2 hne2 hnl2 hts2
    unfold typeSearch at h
    by_cases hnl : c = '\n'
    · rw [if_pos hnl] at h
      cases h
    · rw [if_neg hnl] at h
      rcases hA : (if beginsWith sepStr cs2 = true then tsSearch (cs2.drop 3)
          else none) with _ | ⟨ts0, r0⟩
      · rw [hA] at h
        rcases ht : typeSearch cs2 with _ | ⟨t0, ts0, r0⟩
        · rw [ht] at h
          cases h
        · rw [ht] at h
          injection h with h'
          injection h' with h1 h2'
          subst h1
          rcases t2 with _ | ⟨a, t2'⟩
          · exact absurd rfl hne2
          · simp only [List.cons_append, List.cons.injEq] at h2
            obtain ⟨hca, hcs⟩ := h2
            have ht2' : t2' ≠ [] := by
              intro he
              subst he
              rw [if_pos ((beginsWith_iff _ _).mpr ⟨rest2, by simpa using hcs⟩)]
                at hA
              rw [show cs2.drop 3 = rest2 from by
                rw [show cs2 = sepStr ++ rest2 from by simpa using hcs,
                  drop_sep_append]] at hA
              rw [hA] at hts2
              simp at hts2
            have := ih t0 ts0 r0 ht t2' rest2 hcs ht2'
              (fun x hx => hnl2 x (by simp [hx])) hts2
            simpa using Nat.succ_le_succ this
      · rw [hA] at h
        injection h with h'
        injection h' with h1 h2'
        subst h1
        simpa using Nat.one_le_iff_ne_zero.mpr
          (fun h0 => hne2 (List.length_eq_zero.mp h0))

/-- Soundness of the `contact` search: a hit splits off a possibly-empty
group followed by the separator, on whose remainder the `type` search
hits. -/
lemma contactSearch_sound : ∀ (cs co t ts r : List Char),
    contactSearch cs = some (co, t, ts, r) →
    ∃ rest, cs = co ++ sepStr ++ rest ∧ noNl co ∧
      typeSearch rest = some (t, ts, r) := by
  intro cs
  induction cs with
  | nil =>
    intro co t ts r h
    simp [contactSearch, beginsWith, sepStr] at h
  | cons c cs2 ih =>
    intro co t ts r h
    unfold contactSearch at h
    rcases hA : (if beginsWith sepStr (c :: cs2) = true then
        typeSearch ((c :: cs2).drop 3) else none) with _ | ⟨t0, ts0, r0⟩
    · rw [hA] at h
      dsimp only at h
      by_cases hnl : c = '\n'
      · rw [if_pos hnl] at h
        cases h
      · rw [if_neg hnl] at h
        rcases hc : contactSearch cs2 with _ | ⟨co0, t0, ts0, r0⟩
        · rw [hc] at h
          cases h
        · rw [hc] at h
          injection h with h'
          injection h' with h1 h2
          injection h2 with h3 h4
          injection h4 with h5 h6
          subst h1
          subst h3
          subst h5
          subst h6
          obtain ⟨rest, hr1, hr2, hr3⟩ := ih co0 t0 ts0 r0 hc
          refine ⟨rest, by rw [hr1]; simp, ?_, hr3⟩
          intro x hx
          rcases List.mem_cons.mp hx with hx2 | hx2
          · subst hx2
            exact hnl
          · exact hr2 x hx2
    · rw [hA] at h
      injection h with h'
      injection h' with h1 h2
      injection h2 with h3 h4
      injection h4 with h5 h6
      subst h1
      subst h3
      subst h5
      subst h6
      by_cases hbs : beginsWith sepStr (c :: cs2) = true
      · rw [if_pos hbs] at hA
        obtain ⟨rest, hrest⟩ := (beginsWith_iff _ _).mp hbs
        rw [hrest, drop_sep_append] at hA
        exact ⟨rest, by rw [hrest]; simp, by simp [noNl], hA⟩
      · rw [if_neg hbs] at hA
        cases hA

/-- Completeness of the `contact` search. -/
lemma contactSearch_complete : ∀ (co cs rest : List Char),
    cs = co ++ sepStr ++ rest → noNl co →
    (typeSearch rest).isSome = true → (contactSearch cs).isSome = true := by
  intro co
  induction co with
  | nil =>
    intro cs rest h _ hts
    subst h
    rw [List.nil_append, show sepStr ++ rest = ' ' :: ('-' :: (' ' :: rest)) from rfl]
    unfold contactSearch
    rw [show (' ' :: ('-' :: (' ' :: rest)) : List Char) =
      sepStr ++ rest from rfl]
    rw [if_pos ((beginsWith_iff _ _).mpr ⟨rest, rfl⟩), drop_sep_append]
    rcases htr : typeSearch rest with _ | ⟨t0, ts0, r0⟩
    · rw [htr] at hts
      simp at hts
    · rfl
  | cons a co' ih =>
    intro cs rest h hnl hts
    subst h
    have hna : a ≠ '\n' := hnl a (by simp)
    simp only [List.cons_append]
    unfold contactSearch
    rcases hA : (if beginsWith sepStr (a :: (co' ++ sepStr ++ rest)) = true then
        typeSearch ((a :: (co' ++ sepStr ++ rest)).drop 3) else none)
        with _ | ⟨t0, ts0, r0⟩
    · dsimp only
      rw [if_neg hna]
      have hrec := ih (co' ++ sepStr ++ rest) rest rfl
        (fun x hx => hnl x (by simp [hx])) hts
      rcases hcr : contactSearch (co' ++ sepStr ++ rest) with _ | ⟨co0, t0, ts0, r0⟩
      · rw [hcr] at hrec
        simp at hrec
      · rfl
    · rfl

/-- Laziness of the `contact` search: the hit has the shortest valid
`contact` group. -/
lemma contactSearch_minimal : ∀ (cs co t ts r : List Char),
    contactSearch cs = some (co, t, ts, r) →
    ∀ co2 rest2, cs = co2 ++ sepStr ++ rest2 → noNl co2 →
    (typeSearch rest2).isSome = true → co.length ≤ co2.length := by
  intro cs
  induction cs with
  | nil =>
    intro co t ts r h
    simp [contactSearch, beginsWith, sepStr] at h
  | cons c cs2 ih =>
    intro co t ts r h co2 rest2 h2 hnl2 hts2
    unfold contactSearch at h
    rcases hA : (if beginsWith sepStr (c :: cs2) = true then
        typeSearch ((c :: cs2).drop 3) else none) with _ | ⟨t0, ts0, r0⟩
    · rw [hA] at h
      dsimp only at h
      by_cases hnl : c = '\n'
      · rw [if_pos hnl] at h
        cases h
      · rw [if_neg hnl] at h
        rcases hc : contactSearch cs2 with _ | ⟨co0, t0, ts0, r0⟩
        · rw [hc] at h
          cases h
        · rw [hc] at h
          injection h with h'
          injection h' with h1 h2'
          subst h1
          rcases co2 with _ | ⟨a, co2'⟩
          · exfalso
            rw [List.nil_append] at h2
            rw [if_pos ((beginsWith_iff _ _).mpr ⟨rest2, h2⟩)] at hA
            rw [show (c :: cs2).drop 3 = rest2 from by
              rw [h2, drop_sep_append]] at hA
            rw [hA] at hts2
            simp at hts2
          · simp only [List.cons_append, List.cons.injEq] at h2
            obtain ⟨hca, hcs⟩ := h2
            have := ih co0 t0 ts0 r0 hc co2' rest2 hcs
              (fun x hx => hnl2 x (by simp [hx])) hts2
            simpa using Nat.succ_le_succ this
    · rw [hA] at h
      injection h with h'
      injection h' with h1 h2'
      subst h1
      simp

/-- Combined soundness of the three group searches after the directory. -/
lemma matchTail_sound (r1 co t ts rr : List Char)
    (h : contactSearch r1 = some (co, t, ts, rr)) :
    ∃ rest, r1 = co ++ sepStr ++ (t ++ sepStr ++ (ts ++ htmlExt ++ rest)) ∧
      noNl co ∧ noNl t ∧ noNl ts ∧ t ≠ [] ∧ ts ≠ [] := by
  obtain ⟨rest1, he1, hco, htype⟩ := contactSearch_sound r1 co t ts rr h
  obtain ⟨rest2, he2, hne2, hnt, hts⟩ := typeSearch_sound rest1 t ts rr htype
  obtain ⟨he3, hne3, hnts⟩ := tsSearch_sound rest2 ts rr hts
  refine ⟨rr, ?_, hco, hnt, hnts, hne2, hne3⟩
  rw [he1, he2, he3]

/-- Combined completeness of the three group searches. -/
lemma matchTail_complete (co t ts rest : List Char)
    (hco : noNl co) (hnt : noNl t) (hnts : noNl ts)
    (hne : t ≠ []) (hnes : ts ≠ []) :
    (contactSearch
      (co ++ sepStr ++ (t ++ sepStr ++ (ts ++ htmlExt ++ rest)))).isSome = true := by
  refine contactSearch_complete co _ _ rfl hco ?_
  refine typeSearch_complete t _ _ rfl hne hnt ?_
  exact tsSearch_complete ts _ rest rfl hnes hnts

/-- Combined laziness: the hit minimizes `contact`, then `type`, then
`timestamp` against any alternative decomposition of the same input. -/
lemma matchTail_minimal (r1 co t ts rr co2 t2 ts2 rest2 : List Char)
    (h : contactSearch r1 = some (co, t, ts, rr))
    (h2 : r1 = co2 ++ sepStr ++ (t2 ++ sepStr ++ (ts2 ++ htmlExt ++ rest2)))
    (hco2 : noNl co2) (hnt2 : noNl t2) (hnts2 : noNl ts2)
    (hne2 : t2 ≠ []) (hnes2 : ts2 ≠ []) :
    co.length ≤ co2.length ∧
    (co2 = co → t.length ≤ t2.length) ∧
    (co2 = co → t2 = t → ts.length ≤ ts2.length) := by
  obtain ⟨rest1, he1, _, htype⟩ := contactSearch_sound r1 co t ts rr h
  have htscomp : (tsSearch (ts2 ++ htmlExt ++ rest2)).isSome = true :=
    tsSearch_complete ts2 _ rest2 rfl hnes2 hnts2
  have htcomp : (typeSearch (t2 ++ sepStr ++ (ts2 ++ htmlExt ++ rest2))).isSome = true :=
    typeSearch_complete t2 _ _ rfl hne2 hnt2 htscomp
  refine ⟨contactSearch_minimal r1 co t ts rr h co2 _ h2 hco2 htcomp, ?_, ?_⟩
  · intro hcoeq
    subst hcoeq
    have hr : rest1 = t2 ++ sepStr ++ (ts2 ++ htmlExt ++ rest2) :=
      List.append_cancel_left (he1.symm.trans h2)
    exact typeSearch_minimal rest1 t ts rr htype t2 _ hr hne2 hnt2 htscomp
  · intro hcoeq hteq
    subst hcoeq
    have hr : rest1 = t2 ++ sepStr ++ (ts2 ++ htmlExt ++ rest2) :=
      List.append_cancel_left (he1.symm.trans h2)
    obtain ⟨rest3, he2, _, _, hts⟩ := typeSearch_sound rest1 t ts rr htype
    have hr2 : rest3 = ts2 ++ htmlExt ++ rest2 := by
      rw [hteq] at hr
      exact List.append_cancel_left (he2.symm.trans hr)
    exact tsSearch_minimal rest3 ts rr hts ts2 rest2 hr2 hnes2 hnts2

/-- Anatomy of a successful `matchCallPath`: the directory prefix matched
one alternative and `contactSearch` hit on the remainder. -/
lemma matchCallPath_anatomy (path : String) (g : MatchGroups)
    (hg : matchCallPath path = some g) :
    ∃ (dirS : String) (r1 co t ts rr : List Char),
      (dirS = "Calls" ∨ dirS = "Spam") ∧
      path.data = "Takeout/Voice/".data ++ (dirS.data ++ '/' :: r1) ∧
      contactSearch r1 = some (co, t, ts, rr) ∧
      g = ⟨dirS, ⟨co⟩, ⟨t⟩, ⟨ts⟩⟩ := by
  unfold matchCallPath at hg
  rcases h0 : dropPre "Takeout/Voice/".data path.data with _ | r0
  · rw [h0] at hg
    cases hg
  · rw [h0] at hg
    dsimp only at hg
    have hp0 : path.data = "Takeout/Voice/".data ++ r0 :=
      (dropPre_eq_some _ _ _).mp h0
    rcases hC : dropPre "Calls/".data r0 with _ | r1
    · rw [hC] at hg
      dsimp only at hg
      rcases hS : dropPre "Spam/".data r0 with _ | r1
      · rw [hS] at hg
        cases hg
      · rw [hS] at hg
        dsimp only at hg
        have hr0 : r0 = "Spam/".data ++ r1 := (dropPre_eq_some _ _ _).mp hS
        rcases hcs : contactSearch r1 with _ | ⟨co, t, ts, rr⟩
        · rw [hcs] at hg
          cases hg
        · rw [hcs] at hg
          injection hg with hg2
          refine ⟨"Spam", r1, co, t, ts, rr, Or.inr rfl, ?_, hcs, hg2.symm⟩
          rw [hp0, hr0]
          rfl
    · rw [hC] at hg
      dsimp only at hg
      have hr0 : r0 = "Calls/".data ++ r1 := (dropPre_eq_some _ _ _).mp hC
      rcases hcs : contactSearch r1 with _ | ⟨co, t, ts, rr⟩
      · rw [hcs] at hg
        cases hg
      · rw [hcs] at hg
        injection hg with hg2
        refine ⟨"Calls", r1, co, t, ts, rr, Or.inl rfl, ?_, hcs, hg2.symm⟩
        rw [hp0, hr0]
        rfl

/-- C4 (amended): the Filename Matcher matches exactly the paths of the
form `Takeout/Voice/{Calls|Spam}/{contact} - {type} - {timestamp}.html`
(anchored at the start, case-sensitive, arbitrary trailing characters
after `.html`, no newline inside a group, `type` and `timestamp`
non-empty), silently skipping everything else; within a match all three
of `contact`, `type` and `timestamp` are matched *non-greedily*: the
match minimizes the contact, then the type, then the timestamp group
against any other decomposition of the same path. -/
theorem C4_filename_matcher (path : String) :
    (∀ g : MatchGroups, matchCallPath path = some g →
      (g.directory = "Calls" ∨ g.directory = "Spam") ∧
      noNl g.contact.data ∧ noNl g.typ.data ∧ noNl g.timestamp.data ∧
      g.typ.data ≠ [] ∧ g.timestamp.data ≠ [] ∧
      ∃ rest, path.data =
        pathShape g.directory.data g.contact.data g.typ.data
          g.timestamp.data rest) ∧
    (∀ (dir : String) (co t ts rest : List Char),
      (dir = "Calls" ∨ dir = "Spam") →
      noNl co → noNl t → noNl ts → t ≠ [] → ts ≠ [] →
      path.data = pathShape dir.data co t ts rest →
      (matchCallPath path).isSome = true) ∧
    (∀ (g : MatchGroups) (co2 t2 ts2 rest2 : List Char),
      matchCallPath path = some g →
      noNl co2 → noNl t2 → noNl ts2 → t2 ≠ [] → ts2 ≠ [] →
      path.data = pathShape g.directory.data co2 t2 ts2 rest2 →
      g.contact.data.length ≤ co2.length ∧
      (co2 = g.contact.data → g.typ.data.length ≤ t2.length) ∧
      (co2 = g.contact.data → t2 = g.typ.data →
        g.timestamp.data.length ≤ ts2.length)) := by
  refine ⟨?_, ?_, ?_⟩
  · intro g hg
    obtain ⟨dirS, r1, co, t, ts, rr, hdir, hp, hcs, hgeq⟩ :=
      matchCallPath_anatomy path g hg
    subst hgeq
    obtain ⟨rest, hr1, hco, hnt, hnts, hne, hnes⟩ :=
      matchTail_sound r1 co t ts rr hcs
    refine ⟨hdir, hco, hnt, hnts, hne, hnes, rest, ?_⟩
    rw [hp, hr1]
    simp [pathShape, List.append_assoc]
  · intro dir co t ts rest hdir hco hnt hnts hne hnes hpath
    have hcs := matchTail_complete co t ts rest hco hnt hnts hne hnes
    rcases hdir with rfl | rfl
    · have hp0 : path.data = "Takeout/Voice/".data ++ ("Calls".data ++ '/' ::
          (co ++ sepStr ++ (t ++ sepStr ++ (ts ++ htmlExt ++ rest)))) := by
        rw [hpath]
        simp [pathShape, List.append_assoc]
      unfold matchCallPath
      rw [(dropPre_eq_some _ _ _).mpr hp0]
      dsimp only
      rw [show dropPre "Calls/".data ("Calls".data ++ '/' ::
          (co ++ sepStr ++ (t ++ sepStr ++ (ts ++ htmlExt ++ rest)))) =
        some (co ++ sepStr ++ (t ++ sepStr ++ (ts ++ htmlExt ++ rest))) from rfl]
      dsimp only
      rcases hc2 : contactSearch
          (co ++ sepStr ++ (t ++ sepStr ++ (ts ++ htmlExt ++ rest)))
          with _ | ⟨co0, t0, ts0, rr0⟩
      · rw [hc2] at hcs
        simp at hcs
      · rfl
    · have hp0 : path.data = "Takeout/Voice/".data ++ ("Spam".data ++ '/' ::
          (co ++ sepStr ++ (t ++ sepStr ++ (ts ++ htmlExt ++ rest)))) := by
        rw [hpath]
        simp [pathShape, List.append_assoc]
      unfold matchCallPath
      rw [(dropPre_eq_some _ _ _).mpr hp0]
      dsimp only
      rw [show dropPre "Calls/".data ("Spam".data ++ '/' ::
          (co ++ sepStr ++ (t ++ sepStr ++ (ts ++ htmlExt ++ rest)))) =
        none from rfl]
      dsimp only
      rw [show dropPre "Spam/".data ("Spam".data ++ '/' ::
          (co ++ sepStr ++ (t ++ sepStr ++ (ts ++ htmlExt ++ rest)))) =
        some (co ++ sepStr ++ (t ++ sepStr ++ (ts ++ htmlExt ++ rest))) from rfl]
      dsimp only
      rcases hc2 : contactSearch
          (co ++ sepStr ++ (t ++ sepStr ++ (ts ++ htmlExt ++ rest)))
          with _ | ⟨co0, t0, ts0, rr0⟩
      · rw [hc2] at hcs
        simp at hcs
      · rfl
  · intro g co2 t2 ts2 rest2 hg hco2 hnt2 hnts2 hne2 hnes2 hpath
    obtain ⟨dirS, r1, co, t, ts, rr, hdir, hp, hcs, hgeq⟩ :=
      matchCallPath_anatomy path g hg
    subst hgeq
    have hx : r1 = co2 ++ sepStr ++ (t2 ++ sepStr ++ (ts2 ++ htmlExt ++ rest2)) := by
      have h1 : "Takeout/Voice/".data ++ (dirS.data ++ '/' :: r1) =
          "Takeout/Voice/".data ++ (dirS.data ++ '/' ::
            (co2 ++ sepStr ++ (t2 ++ sepStr ++ (ts2 ++ htmlExt ++ rest2)))) := by
        rw [← hp, hpath]
        simp [pathShape, List.append_assoc]
      have h2 := List.append_cancel_left h1
      have h3 := List.append_cancel_left h2
      exact (List.cons.inj h3).2
    exact matchTail_minimal r1 co t ts rr co2 t2 ts2 rest2 hcs hx
      hco2 hnt2 hnts2 hne2 hnes2

/-- C4 counterexample: on a path whose contact field itself contains the
separator, the code's non-greedy `type` group stops at the first
separator (`type = "B"`, `timestamp = "C - D"`), while the greedy `type`
the claim describes would take `type = "B - C"`, `timestamp = "D"` — the
two matchers disagree. -/
theorem C4_greedy_type_counterexample :
    matchCallPath "Takeout/Voice/Calls/A - B - C - D.html" =
      some ⟨"Calls", "A", "B", "C - D"⟩ ∧
    matchCallPathSpec "Takeout/Voice/Calls/A - B - C - D.html" =
      some ⟨"Calls", "A", "B - C", "D"⟩ ∧
    matchCallPath "Takeout/Voice/Calls/A - B - C - D.html" ≠
      matchCallPathSpec "Takeout/Voice/Calls/A - B - C - D.html" := by
  refine ⟨by decide, by decide, by decide⟩

/-- C4 witness: a concrete conversation path is matched (completeness
branch of the amended statement at an explicit input). -/
theorem C4_filename_matcher_witness :
    (matchCallPath
      "Takeout/Voice/Calls/Jane Doe - Missed - 2020-08-21T18_57_10Z.html").isSome
      = true :=
  (C4_filename_matcher
      "Takeout/Voice/Calls/Jane Doe - Missed - 2020-08-21T18_57_10Z.html").2.1
    "Calls" "Jane Doe".data "Missed".data "2020-08-21T18_57_10Z".data []
    (Or.inl rfl) (by decide) (by decide) (by decide) (by decide) (by decide)
    (by decide)

/-! ## C8 — sorting and the lexicographic/chronological correspondence -/

/-- Character comparison is equivalent to comparison of code points. -/
lemma charLtb_iff (a b : Char) : charLtb a b = true ↔ a.toNat < b.toNat := by
  simp [charLtb]

/-- Two characters with neither smaller are equal. -/
lemma char_eq_of_not_ltb (a b : Char) (h1 : charLtb a b = false)
    (h2 : charLtb b a = false) : a = b := by
  simp [charLtb, Char.toNat] at h1 h2
  exact Char.eq_of_val_eq (UInt32.ext (by omega))

/-- String comparison is irreflexive. -/
lemma lexLt_irrefl : ∀ cs : List Char, lexLt cs cs = false := by
  intro cs
  induction cs with
  | nil => rfl
  | cons c cs2 ih =>
    unfold lexLt
    rw [if_neg (by simp [charLtb]), if_neg (by simp [charLtb])]
    exact ih

/-- String comparison is asymmetric. -/
lemma lexLt_asymm : ∀ (a b : List Char), lexLt a b = true → lexLt b a = false := by
  intro a
  induction a with
  | nil =>
    intro b h
    cases b with
    | nil => simp [lexLt] at h
    | cons y ys => rfl
  | cons x xs ih =>
    intro b h
    cases b with
    | nil => simp [lexLt] at h
    | cons y ys =>
      unfold lexLt at h ⊢
      by_cases h1 : charLtb x y = true
      · have h2 : charLtb y x = false := by
          simp [charLtb, Char.toNat] at h1 ⊢
          omega
        rw [if_neg (by simp [h2]), if_pos h1]
      · rw [if_neg h1] at h
        by_cases h2 : charLtb y x = true
        · rw [if_pos h2] at h
          cases h
        · rw [if_neg h2] at h
          rw [if_neg h2, if_neg h1]
          exact ih ys h

/-- String comparison is transitive. -/
lemma lexLt_trans : ∀ (a b c : List Char),
    lexLt a b = true → lexLt b c = true → lexLt a c = true := by
  intro a
  induction a with
  | nil =>
    intro b c h1 h2
    cases c with
    | nil =>
      rw [show lexLt b [] = false from by cases b <;> rfl] at h2
      cases h2
    | cons z zs => rfl
  | cons x xs ih =>
    intro b c h1 h2
    cases b with
    | nil => simp [lexLt] at h1
    | cons y ys =>
      cases c with
      | nil => simp [lexLt] at h2
      | cons z zs =>
        unfold lexLt at h1 h2 ⊢
        by_cases hxy : charLtb x y = true
        · by_cases hyz : charLtb y z = true
          · rw [if_pos (by
              simp [charLtb, Char.toNat] at hxy hyz ⊢
              omega)]
          · rw [if_neg hyz] at h2
            by_cases hzy : charLtb z y = true
            · rw [if_pos hzy] at h2
              cases h2
            · have hyeq : y = z := char_eq_of_not_ltb y z
                (by simpa using hyz) (by simpa using hzy)
              subst hyeq
              rw [if_pos hxy]
        · rw [if_neg hxy] at h1
          by_cases hyx : charLtb y x = true
          · rw [if_pos hyx] at h1
            cases h1
          · rw [if_neg hyx] at h1
            have hxeq : x = y := char_eq_of_not_ltb x y
              (by simpa using hxy) (by simpa using hyx)
            subst hxeq
            by_cases hyz : charLtb x z = true
            · rw [if_pos hyz]
            · rw [if_neg hyz] at h2 ⊢
              by_cases hzy : charLtb z x = true
              · rw [if_pos hzy] at h2
                cases h2
              · rw [if_neg hzy] at h2 ⊢
                exact ih ys zs h1 h2

/-- Two strings with neither smaller are equal. -/
lemma lexLt_eq_of_not : ∀ (a b : List Char),
    lexLt a b = false → lexLt b a = false → a = b := by
  intro a
  induction a with
  | nil =>
    intro b h1 h2
    cases b with
    | nil => rfl
    | cons y ys => simp [lexLt] at h1
  | cons x xs ih =>
    intro b h1 h2
    cases b with
    | nil => simp [lexLt] at h2
    | cons y ys =>
      unfold lexLt at h1 h2
      by_cases hxy : charLtb x y = true
      · rw [if_pos hxy] at h1
        cases h1
      · by_cases hyx : charLtb y x = true
        · rw [if_pos hyx] at h2
          cases h2
        · rw [if_neg hxy, if_neg hyx] at h1
          rw [if_neg hyx, if_neg hxy] at h2
          have hxeq : x = y := char_eq_of_not_ltb x y
            (by simpa using hxy) (by simpa using hyx)
          rw [hxeq, ih ys h1 h2]

/-- The record comparator is transitive, as `List.mergeSort` requires. -/
lemma recLe_trans (a b c : CallRecord) (h1 : recLe a b = true)
    (h2 : recLe b c = true) : recLe a c = true := by
  unfold recLe pyStrLt at h1 h2 ⊢
  simp only [Bool.not_eq_true'] at h1 h2 ⊢
  by_cases hca : lexLt c.timestamp.data a.timestamp.data = true
  · by_cases hbc : lexLt b.timestamp.data c.timestamp.data = true
    · exact absurd (lexLt_trans _ _ _ hbc hca) (by simp [h1])
    · have : b.timestamp.data = c.timestamp.data :=
        lexLt_eq_of_not _ _ (by simpa using hbc) h2
      rw [← this] at hca
      exact absurd hca (by simp [h1])
  · simpa using hca

/-- The record comparator is total, as `List.mergeSort` requires. -/
lemma recLe_total (a b : CallRecord) : (recLe a b || recLe b a) = true := by
  unfold recLe pyStrLt
  by_cases h : lexLt b.timestamp.data a.timestamp.data = true
  · simp [lexLt_asymm _ _ h]
  · simp [h]

/-! ### Digit numerals and the block-wise comparison lemmas -/

/-- Code-point bounds of a decimal digit character. -/
lemma isDigit_toNat {c : Char} (h : c.isDigit = true) :
    48 ≤ c.toNat ∧ c.toNat ≤ 57 := by
  simp [Char.isDigit] at h
  exact h

/-- The value of a digit character is below ten. -/
lemma digitVal_lt_ten {c : Char} (h : c.isDigit = true) : digitVal c < 10 := by
  obtain ⟨h1, h2⟩ := isDigit_toNat h
  simp only [digitVal]
  omega

/-- Digit characters with equal values are equal. -/
lemma digitVal_inj {a b : Char} (ha : a.isDigit = true) (hb : b.isDigit = true)
    (h : digitVal a = digitVal b) : a = b := by
  obtain ⟨ha1, _⟩ := isDigit_toNat ha
  obtain ⟨hb1, _⟩ := isDigit_toNat hb
  have htn : a.toNat = b.toNat := by
    simp only [digitVal] at h
    omega
  exact Char.eq_of_val_eq (UInt32.ext (by simpa [Char.toNat] using htn))

/-- Comparison of digit characters is comparison of their values. -/
lemma charLtb_digit_iff {a b : Char} (ha : a.isDigit = true)
    (hb : b.isDigit = true) : charLtb a b = true ↔ digitVal a < digitVal b := by
  obtain ⟨ha1, _⟩ := isDigit_toNat ha
  obtain ⟨hb1, _⟩ := isDigit_toNat hb
  simp only [charLtb, digitVal, decide_eq_true_eq]
  omega

/-- Digit folding with a seed. -/
lemma digitsVal_foldl (cs : List Char) : ∀ n : Nat,
    cs.foldl (fun n c => n * 10 + digitVal c) n
      = n * 10 ^ cs.length + digitsVal cs := by
  induction cs with
  | nil =>
    intro n
    simp [digitsVal]
  | cons c cs2 ih =>
    intro n
    have h0 : digitsVal (c :: cs2)
        = List.foldl (fun n c => n * 10 + digitVal c) (digitVal c) cs2 := by
      simp [digitsVal]
    have hv : digitsVal (c :: cs2)
        = digitVal c * 10 ^ cs2.length + digitsVal cs2 := by
      rw [h0, ih (digitVal c)]
    rw [List.foldl_cons, ih (n * 10 + digitVal c), hv, List.length_cons,
      pow_succ]
    ring

/-- Numeral of a concatenation. -/
lemma digitsVal_append (a b : List Char) :
    digitsVal (a ++ b) = digitsVal a * 10 ^ b.length + digitsVal b := by
  unfold digitsVal
  rw [List.foldl_append]
  exact digitsVal_foldl b _

/-- Numeral of a single cons. -/
lemma digitsVal_cons (c : Char) (cs : List Char) :
    digitsVal (c :: cs) = digitVal c * 10 ^ cs.length + digitsVal cs := by
  rw [show c :: cs = [c] ++ cs from rfl, digitsVal_append]
  norm_num [digitsVal, digitVal]

/-- A digit numeral is bounded by the power of its width. -/
lemma dv_lt_pow : ∀ ds : List Char, (∀ c ∈ ds, c.isDigit = true) →
    digitsVal ds < 10 ^ ds.length := by
  intro ds
  induction ds with
  | nil =>
    intro _
    simp [digitsVal]
  | cons c cs ih =>
    intro h
    rw [digitsVal_cons, List.length_cons, pow_succ]
    have h1 : digitVal c < 10 := digitVal_lt_ten (h c (by simp))
    have h2 : digitsVal cs < 10 ^ cs.length := ih (fun x hx => h x (by simp [hx]))
    calc digitVal c * 10 ^ cs.length + digitsVal cs
        < digitVal c * 10 ^ cs.length + 10 ^ cs.length := by omega
      _ = (digitVal c + 1) * 10 ^ cs.length := by ring
      _ ≤ 10 * 10 ^ cs.length := Nat.mul_le_mul_right _ (by omega)
      _ = 10 ^ cs.length * 10 := by ring

/-- Mixed-radix comparison: with bounded remainders, compare the high
parts first. -/
lemma mixedRadix_lt_iff (B a1 r1 a2 r2 : Nat) (h1 : r1 < B) (h2 : r2 < B) :
    a1 * B + r1 < a2 * B + r2 ↔ (a1 < a2 ∨ (a1 = a2 ∧ r1 < r2)) := by
  constructor
  · intro h
    rcases Nat.lt_trichotomy a1 a2 with hlt | heq | hgt
    · exact Or.inl hlt
    · subst heq
      exact Or.inr ⟨rfl, by omega⟩
    · exfalso
      have hle : a2 * B + r2 < a1 * B := by
        calc a2 * B + r2 < a2 * B + B := by omega
          _ = (a2 + 1) * B := by ring
          _ ≤ a1 * B := Nat.mul_le_mul_right _ (by omega)
      omega
  · rintro (hlt | ⟨heq, hr⟩)
    · have hle : a1 * B + r1 < a2 * B := by
        calc a1 * B + r1 < a1 * B + B := by omega
          _ = (a1 + 1) * B := by ring
          _ ≤ a2 * B := Nat.mul_le_mul_right _ (by omega)
      omega
    · subst heq
      omega

/-- Mixed-radix equality: with bounded remainders, the components agree. -/
lemma mixedRadix_eq_iff (B a1 r1 a2 r2 : Nat) (h1 : r1 < B) (h2 : r2 < B) :
    a1 * B + r1 = a2 * B + r2 ↔ (a1 = a2 ∧ r1 = r2) := by
  constructor
  · intro h
    rcases Nat.lt_trichotomy a1 a2 with hlt | heq | hgt
    · have := (mixedRadix_lt_iff B a1 r1 a2 r2 h1 h2).mpr (Or.inl hlt)
      omega
    · subst heq
      exact ⟨rfl, by omega⟩
    · have := (mixedRadix_lt_iff B a2 r2 a1 r1 h2 h1).mpr (Or.inl hgt)
      omega
  · rintro ⟨heq, hr⟩
    subst heq
    omega

/-- Comparing two lists that share the head character reduces to the
tails. -/
lemma lexLt_cons_same (c : Char) (a b : List Char) :
    lexLt (c :: a) (c :: b) = lexLt a b := by
  rw [show lexLt (c :: a) (c :: b)
    = (if charLtb c c = true then true
      else if charLtb c c = true then false else lexLt a b) from rfl]
  rw [if_neg (by simp [charLtb]), if_neg (by simp [charLtb])]

/-- Block-wise string comparison: equal-width digit blocks compare by
numeral value, a tied block falls through to the suffixes. -/
lemma lexLt_digit_block : ∀ (d1 d2 s1 s2 : List Char), d1.length = d2.length →
    (∀ c ∈ d1, c.isDigit = true) → (∀ c ∈ d2, c.isDigit = true) →
    (lexLt (d1 ++ s1) (d2 ++ s2) = true ↔
      (digitsVal d1 < digitsVal d2 ∨
        (digitsVal d1 = digitsVal d2 ∧ lexLt s1 s2 = true))) := by
  intro d1
  induction d1 with
  | nil =>
    intro d2 s1 s2 hlen _ _
    cases d2 with
    | nil => simp [digitsVal]
    | cons d ds => simp at hlen
  | cons c cs ih =>
    intro d2 s1 s2 hlen hd1 hd2
    cases d2 with
    | nil => simp at hlen
    | cons d ds =>
      simp only [List.length_cons, Nat.succ.injEq] at hlen
      have hc : c.isDigit = true := hd1 c (by simp)
      have hd : d.isDigit = true := hd2 d (by simp)
      have hcs : ∀ x ∈ cs, x.isDigit = true := fun x hx => hd1 x (by simp [hx])
      have hds : ∀ x ∈ ds, x.isDigit = true := fun x hx => hd2 x (by simp [hx])
      have hbound1 : digitsVal cs < 10 ^ ds.length := by
        rw [← hlen]
        exact dv_lt_pow cs hcs
      have hbound2 : digitsVal ds < 10 ^ ds.length := dv_lt_pow ds hds
      rw [List.cons_append, List.cons_append]
      rw [digitsVal_cons, digitsVal_cons, hlen]
      rw [mixedRadix_eq_iff _ _ _ _ _ hbound1 hbound2]
      rw [mixedRadix_lt_iff _ _ _ _ _ hbound1 hbound2]
      rw [show lexLt (c :: (cs ++ s1)) (d :: (ds ++ s2))
        = (if charLtb c d = true then true
          else if charLtb d c = true then false
            else lexLt (cs ++ s1) (ds ++ s2)) from rfl]
      by_cases hcd : charLtb c d = true
      · rw [if_pos hcd]
        have hv : digitVal c < digitVal d := (charLtb_digit_iff hc hd).mp hcd
        simp [hv]
      · rw [if_neg hcd]
        by_cases hdc : charLtb d c = true
        · rw [if_pos hdc]
          have hv : digitVal d < digitVal c := (charLtb_digit_iff hd hc).mp hdc
          constructor
          · intro hfalse
            cases hfalse
          · rintro (hbad | ⟨hbad, _⟩) <;> omega
        · have heq : c = d := char_eq_of_not_ltb c d
            (by simpa using hcd) (by simpa using hdc)
          subst heq
          rw [if_neg hdc]
          rw [ih ds s1 s2 hlen hcs hds]
          simp

/-- Comparing the numerals of two equal-width concatenations reduces
block-wise. -/
lemma dv_append_lt_iff (a1 a2 b1 b2 : List Char)
    (hla : a1.length = a2.length) (hlb : b1.length = b2.length)
    (hb1 : ∀ c ∈ b1, c.isDigit = true) (hb2 : ∀ c ∈ b2, c.isDigit = true) :
    digitsVal (a1 ++ b1) < digitsVal (a2 ++ b2) ↔
      (digitsVal a1 < digitsVal a2 ∨
        (digitsVal a1 = digitsVal a2 ∧ digitsVal b1 < digitsVal b2)) := by
  rw [digitsVal_append, digitsVal_append, hlb]
  exact mixedRadix_lt_iff _ _ _ _ _
    (by rw [← hlb]; exact dv_lt_pow b1 hb1) (dv_lt_pow b2 hb2)

/-- On well-formed filename timestamps, the formatted strings compare
lexicographically exactly as the 14-digit chronological keys of the raw
timestamps. -/
lemma fmt_lex_iff_chrono (u v : String) (hu : goodRawTs u) (hv : goodRawTs v) :
    (pyStrLt (format_timestamp u) (format_timestamp v) = true ↔
      tsChrono u < tsChrono v) := by
  obtain ⟨a1, a2, a3, a4, b1, b2, c1, c2, e1, e2, f1, f2, g1, g2, hallu, hdu⟩ := hu
  obtain ⟨p1, p2, p3, p4, q1, q2, r1, r2, w1, w2, x1, x2, z1, z2, hallv, hdv⟩ := hv
  simp only [List.all_cons, List.all_nil, Bool.and_eq_true, and_true]
    at hallu hallv
  obtain ⟨ha1, ha2, ha3, ha4, hb1, hb2, hc1, hc2, he1, he2, hf1, hf2, hg1, hg2⟩ :=
    hallu
  obtain ⟨hp1, hp2, hp3, hp4, hq1, hq2, hr1, hr2, hw1, hw2, hx1, hx2, hz1, hz2⟩ :=
    hallv
  have hu2 : u = ⟨[a1, a2, a3, a4, '-', b1, b2, '-', c1, c2, 'T',
      e1, e2, '_', f1, f2, '_', g1, g2, 'Z']⟩ := by
    cases u with
    | mk data =>
      simp only at hdu
      rw [hdu]
  have hv2 : v = ⟨[p1, p2, p3, p4, '-', q1, q2, '-', r1, r2, 'T',
      w1, w2, '_', x1, x2, '_', z1, z2, 'Z']⟩ := by
    cases v with
    | mk data =>
      simp only at hdv
      rw [hdv]
  subst hu2
  subst hv2
  rw [format_timestamp_shape a1 a2 a3 a4 b1 b2 c1 c2 e1 e2 f1 f2 g1 g2
    ha1 ha2 ha3 ha4 hb1 hb2 hc1 hc2 he1 he2 hf1 hf2 hg1 hg2]
  rw [format_timestamp_shape p1 p2 p3 p4 q1 q2 r1 r2 w1 w2 x1 x2 z1 z2
    hp1 hp2 hp3 hp4 hq1 hq2 hr1 hr2 hw1 hw2 hx1 hx2 hz1 hz2]
  have hch1 : tsChrono ⟨[a1, a2, a3, a4, '-', b1, b2, '-', c1, c2, 'T',
      e1, e2, '_', f1, f2, '_', g1, g2, 'Z']⟩ =
      digitsVal [a1, a2, a3, a4, b1, b2, c1, c2, e1, e2, f1, f2, g1, g2] := by
    simp [tsChrono, List.filter_cons, ha1, ha2, ha3, ha4, hb1, hb2, hc1, hc2,
      he1, he2, hf1, hf2, hg1, hg2,
      show ('-').isDigit = false from rfl, show ('T').isDigit = false from rfl,
      show ('_').isDigit = false from rfl, show ('Z').isDigit = false from rfl]
  have hch2 : tsChrono ⟨[p1, p2, p3, p4, '-', q1, q2, '-', r1, r2, 'T',
      w1, w2, '_', x1, x2, '_', z1, z2, 'Z']⟩ =
      digitsVal [p1, p2, p3, p4, q1, q2, r1, r2, w1, w2, x1, x2, z1, z2] := by
    simp [tsChrono, List.filter_cons, hp1, hp2, hp3, hp4, hq1, hq2, hr1, hr2,
      hw1, hw2, hx1, hx2, hz1, hz2,
      show ('-').isDigit = false from rfl, show ('T').isDigit = false from rfl,
      show ('_').isDigit = false from rfl, show ('Z').isDigit = false from rfl]
  rw [hch1, hch2]
  have hYu : ∀ x ∈ [a1, a2, a3, a4], x.isDigit = true := by
    intro x hx
    simp at hx
    rcases hx with rfl | rfl | rfl | rfl <;> assumption
  have hYv : ∀ x ∈ [p1, p2, p3, p4], x.isDigit = true := by
    intro x hx
    simp at hx
    rcases hx with rfl | rfl | rfl | rfl <;> assumption
  have hMu : ∀ x ∈ [b1, b2], x.isDigit = true := by
    intro x hx
    simp at hx
    rcases hx with rfl | rfl <;> assumption
  have hMv : ∀ x ∈ [q1, q2], x.isDigit = true := by
    intro x hx
    simp at hx
    rcases hx with rfl | rfl <;> assumption
  have hDu : ∀ x ∈ [c1, c2], x.isDigit = true := by
    intro x hx
    simp at hx
    rcases hx with rfl | rfl <;> assumption
  have hDv : ∀ x ∈ [r1, r2], x.isDigit = true := by
    intro x hx
    simp at hx
    rcases hx with rfl | rfl <;> assumption
  have hHu : ∀ x ∈ [e1, e2], x.isDigit = true := by
    intro x hx
    simp at hx
    rcases hx with rfl | rfl <;> assumption
  have hHv : ∀ x ∈ [w1, w2], x.isDigit = true := by
    intro x hx
    simp at hx
    rcases hx with rfl | rfl <;> assumption
  have hIu : ∀ x ∈ [f1, f2], x.isDigit = true := by
    intro x hx
    simp at hx
    rcases hx with rfl | rfl <;> assumption
  have hIv : ∀ x ∈ [x1, x2], x.isDigit = true := by
    intro x hx
    simp at hx
    rcases hx with rfl | rfl <;> assumption
  have hSu : ∀ x ∈ [g1, g2], x.isDigit = true := by
    intro x hx
    simp at hx
    rcases hx with rfl | rfl <;> assumption
  have hSv : ∀ x ∈ [z1, z2], x.isDigit = true := by
    intro x hx
    simp at hx
    rcases hx with rfl | rfl <;> assumption
  have hR1u : ∀ x ∈ [b1, b2] ++ ([c1, c2] ++ ([e1, e2] ++ ([f1, f2] ++ [g1, g2]))),
      x.isDigit = true := by
    intro x hx
    simp at hx
    rcases hx with rfl | rfl | rfl | rfl | rfl | rfl | rfl | rfl | rfl | rfl <;>
      assumption
  have hR1v : ∀ x ∈ [q1, q2] ++ ([r1, r2] ++ ([w1, w2] ++ ([x1, x2] ++ [z1, z2]))),
      x.isDigit = true := by
    intro x hx
    simp at hx
    rcases hx with rfl | rfl | rfl | rfl | rfl | rfl | rfl | rfl | rfl | rfl <;>
      assumption
  have hR2u : ∀ x ∈ [c1, c2] ++ ([e1, e2] ++ ([f1, f2] ++ [g1, g2])),
      x.isDigit = true := by
    intro x hx
    simp at hx
    rcases hx with rfl | rfl | rfl | rfl | rfl | rfl | rfl | rfl <;> assumption
  have hR2v : ∀ x ∈ [r1, r2] ++ ([w1, w2] ++ ([x1, x2] ++ [z1, z2])),
      x.isDigit = true := by
    intro x hx
    simp at hx
    rcases hx with rfl | rfl | rfl | rfl | rfl | rfl | rfl | rfl <;> assumption
  have hR3u : ∀ x ∈ [e1, e2] ++ ([f1, f2] ++ [g1, g2]), x.isDigit = true := by
    intro x hx
    simp at hx
    rcases hx with rfl | rfl | rfl | rfl | rfl | rfl <;> assumption
  have hR3v : ∀ x ∈ [w1, w2] ++ ([x1, x2] ++ [z1, z2]), x.isDigit = true := by
    intro x hx
    simp at hx
    rcases hx with rfl | rfl | rfl | rfl | rfl | rfl <;> assumption
  have hR4u : ∀ x ∈ [f1, f2] ++ [g1, g2], x.isDigit = true := by
    intro x hx
    simp at hx
    rcases hx with rfl | rfl | rfl | rfl <;> assumption
  have hR4v : ∀ x ∈ [x1, x2] ++ [z1, z2], x.isDigit = true := by
    intro x hx
    simp at hx
    rcases hx with rfl | rfl | rfl | rfl <;> assumption
  show lexLt
      ([a1, a2, a3, a4] ++ '-' :: ([b1, b2] ++ '-' :: ([c1, c2] ++ 'T' ::
        ([e1, e2] ++ ':' :: ([f1, f2] ++ ':' :: ([g1, g2] ++ "+00:00".data))))))
      ([p1, p2, p3, p4] ++ '-' :: ([q1, q2] ++ '-' :: ([r1, r2] ++ 'T' ::
        ([w1, w2] ++ ':' :: ([x1, x2] ++ ':' :: ([z1, z2] ++ "+00:00".data))))))
      = true ↔
    digitsVal ([a1, a2, a3, a4] ++ ([b1, b2] ++ ([c1, c2] ++ ([e1, e2] ++
      ([f1, f2] ++ [g1, g2]))))) <
    digitsVal ([p1, p2, p3, p4] ++ ([q1, q2] ++ ([r1, r2] ++ ([w1, w2] ++
      ([x1, x2] ++ [z1, z2])))))
  rw [lexLt_digit_block [a1, a2, a3, a4] [p1, p2, p3, p4] _ _ rfl hYu hYv]
  rw [lexLt_cons_same]
  rw [lexLt_digit_block [b1, b2] [q1, q2] _ _ rfl hMu hMv]
  rw [lexLt_cons_same]
  rw [lexLt_digit_block [c1, c2] [r1, r2] _ _ rfl hDu hDv]
  rw [lexLt_cons_same]
  rw [lexLt_digit_block [e1, e2] [w1, w2] _ _ rfl hHu hHv]
  rw [lexLt_cons_same]
  rw [lexLt_digit_block [f1, f2] [x1, x2] _ _ rfl hIu hIv]
  rw [lexLt_cons_same]
  rw [lexLt_digit_block [g1, g2] [z1, z2] _ _ rfl hSu hSv]
  rw [lexLt_irrefl]
  rw [dv_append_lt_iff [a1, a2, a3, a4] [p1, p2, p3, p4]
    ([b1, b2] ++ ([c1, c2] ++ ([e1, e2] ++ ([f1, f2] ++ [g1, g2]))))
    ([q1, q2] ++ ([r1, r2] ++ ([w1, w2] ++ ([x1, x2] ++ [z1, z2]))))
    rfl rfl hR1u hR1v]
  rw [dv_append_lt_iff [b1, b2] [q1, q2]
    ([c1, c2] ++ ([e1, e2] ++ ([f1, f2] ++ [g1, g2])))
    ([r1, r2] ++ ([w1, w2] ++ ([x1, x2] ++ [z1, z2])))
    rfl rfl hR2u hR2v]
  rw [dv_append_lt_iff [c1, c2] [r1, r2]
    ([e1, e2] ++ ([f1, f2] ++ [g1, g2]))
    ([w1, w2] ++ ([x1, x2] ++ [z1, z2]))
    rfl rfl hR3u hR3v]
  rw [dv_append_lt_iff [e1, e2] [w1, w2]
    ([f1, f2] ++ [g1, g2]) ([x1, x2] ++ [z1, z2])
    rfl rfl hR4u hR4v]
  rw [dv_append_lt_iff [f1, f2] [x1, x2] [g1, g2] [z1, z2] rfl rfl hSu hSv]
  simp

/-- C8: a successful `parse_takeout` run returns the parsed records
sorted by the stable merge sort under the timestamp comparator — the
output is pairwise ascending (Python string order on `timestamp`), a
permutation of the parsed records, and stable (any pair in comparator
order keeps its relative order) — and on timestamps produced by the
Timestamp Formatter from well-formed filename timestamps this
lexicographic order coincides with chronological order. -/
theorem C8_sorted_output :
    (∀ (digest : String → String) (names : List String)
        (files : String → Except Unit Element) (st0 : ContactStats)
        (tbl0 : AnonTable) (recs : List CallRecord),
      parse_takeout digest names files st0 tbl0 = .ok recs →
      ∃ recs0 stf tblf,
        parse_calls digest files (match_calls names) st0 tbl0 =
          .ok (recs0, stf, tblf) ∧
        recs = recs0.mergeSort recLe ∧
        List.Pairwise (fun a b => recLe a b = true) recs ∧
        recs.Perm recs0 ∧
        (∀ a b : CallRecord, recLe a b = true → [a, b].Sublist recs0 →
          [a, b].Sublist recs)) ∧
    (∀ u v : String, goodRawTs u → goodRawTs v →
      (pyStrLt (format_timestamp u) (format_timestamp v) = true ↔
        tsChrono u < tsChrono v)) := by
  constructor
  · intro digest names files st0 tbl0 recs h
    unfold parse_takeout at h
    rcases hp : parse_calls digest files (match_calls names) st0 tbl0
      with e | ⟨rs, stf, tblf⟩
    · rw [hp] at h
      cases h
    · rw [hp] at h
      dsimp only at h
      rcases hc : checkStats stf with e | u2
      · rw [hc] at h
        cases h
      · rw [hc] at h
        dsimp only at h
        injection h with h2
        refine ⟨rs, stf, tblf, rfl, h2.symm, ?_, ?_, ?_⟩
        · rw [← h2]
          exact List.sorted_mergeSort
            (fun a b c => recLe_trans a b c) recLe_total rs
        · rw [← h2]
          exact List.mergeSort_perm rs recLe
        · intro a b hab hsub
          rw [← h2]
          exact List.sublist_mergeSort (fun x y z => recLe_trans x y z)
            recLe_total (by simp [hab]) hsub
  · exact fun u v hu hv => fmt_lex_iff_chrono u v hu hv

/-- C8 witness: on the concrete filename timestamps of August 21 and
August 22, 2020, the formatted strings compare lexicographically in
chronological order. -/
theorem C8_sorted_output_witness :
    (pyStrLt (format_timestamp "2020-08-21T18_57_10Z")
        (format_timestamp "2020-08-22T18_57_10Z") = true ↔
      tsChrono "2020-08-21T18_57_10Z" < tsChrono "2020-08-22T18_57_10Z") ∧
    pyStrLt (format_timestamp "2020-08-21T18_57_10Z")
      (format_timestamp "2020-08-22T18_57_10Z") = true := by
  have hg1 : goodRawTs "2020-08-21T18_57_10Z" :=
    ⟨'2', '0', '2', '0', '0', '8', '2', '1', '1', '8', '5', '7', '1', '0',
      by decide, by decide⟩
  have hg2 : goodRawTs "2020-08-22T18_57_10Z" :=
    ⟨'2', '0', '2', '0', '0', '8', '2', '2', '1', '8', '5', '7', '1', '0',
      by decide, by decide⟩
  have h := (C8_sorted_output).2 "2020-08-21T18_57_10Z" "2020-08-22T18_57_10Z"
    hg1 hg2
  exact ⟨h, h.mpr (by decide)⟩

end GVH
